import Mathlib

/-!
# Verification of the pypvasync client core

Shallow embedding of `epics/pv.py` and `epics/callback_registry.py`:

* Python `dict`s are modelled as association lists (`List (K × V)`) with
  insertion-order-preserving update (`aset`), first-match lookup (`aget`)
  and key deletion (`adel`), matching CPython dict semantics.
* `MonitorCallback` is modelled with its hash-based equality: CPython's
  integer hash (reduction mod `2^61 - 1` on 64-bit builds) and the
  xxHash-style tuple hash used since CPython 3.8 are embedded exactly.
* `ChannelCallbackRegistry` is modelled as a state record with the same
  two-level `signal → channel → (cbid → listener)` table, reverse index
  and one-shot set; `process` iterates a snapshot of the bucket, exactly
  like the source's `list(callbacks.items())`.
* `PV` is modelled by a state record holding the fields of `self._args`
  (present-vs-absent dict keys become `Option`), the tri-state
  `auto_monitor`, the `_monref` handle and the `connected` flag.
  Listeners are modelled as functions returning `Except`, where the
  exception value abstracts CPython's `(exception, traceback)` pair
  (the traceback is the runtime artifact identifying the raising frame).
  User callbacks are modelled as observers: they do not mutate the
  owning object (none of the verified claims involves a self-mutating
  callback).
-/

namespace PyPVAsync

/-! ## Association lists modelling Python dicts -/

variable {K V : Type} [DecidableEq K]

/-- First-match lookup, like `d[k]`/`k in d` on a Python dict. -/
def aget : List (K × V) → K → Option V
  | [], _ => none
  | (k', v) :: t, k => if k' = k then some v else aget t k

/-- Insertion-order-preserving store, like `d[k] = v` on a Python dict:
update in place if the key exists, else append at the end. -/
def aset : List (K × V) → K → V → List (K × V)
  | [], k, v => [(k, v)]
  | (k', v') :: t, k, v => if k' = k then (k, v) :: t else (k', v') :: aset t k v

/-- Deletion of the (first, hence with `Nodup` keys: the) entry for a key,
like `del d[k]`; absent keys leave the list unchanged. -/
def adel : List (K × V) → K → List (K × V)
  | [], _ => []
  | (k', v) :: t, k => if k' = k then t else (k', v) :: adel t k

/-- The key list of an association list, in insertion order. -/
def keys (l : List (K × V)) : List K := l.map Prod.fst

@[simp] theorem keys_nil : keys ([] : List (K × V)) = [] := rfl

@[simp] theorem keys_cons (p : K × V) (t : List (K × V)) :
    keys (p :: t) = p.1 :: keys t := rfl

theorem aget_aset_self (l : List (K × V)) (k : K) (v : V) :
    aget (aset l k v) k = some v := by
  induction l with
  | nil => simp [aset, aget]
  | cons p t ih =>
    obtain ⟨k₀, v₀⟩ := p
    by_cases h : k₀ = k <;> simp [aset, aget, h, ih]

theorem aget_aset_ne (l : List (K × V)) {k k' : K} (v : V) (h : k' ≠ k) :
    aget (aset l k v) k' = aget l k' := by
  have hk : ¬(k = k') := fun hh => h hh.symm
  induction l with
  | nil => simp [aset, aget, hk]
  | cons p t ih =>
    obtain ⟨k₀, v₀⟩ := p
    by_cases hp : k₀ = k
    · subst hp
      simp [aset, aget, hk]
    · simp only [aset, hp, if_neg hp, aget]
      by_cases hp' : k₀ = k' <;> simp [aget, hp', ih]

theorem aget_adel_ne (l : List (K × V)) {k k' : K} (h : k' ≠ k) :
    aget (adel l k) k' = aget l k' := by
  have hk : ¬(k = k') := fun hh => h hh.symm
  induction l with
  | nil => simp [adel]
  | cons p t ih =>
    obtain ⟨k₀, v₀⟩ := p
    by_cases hp : k₀ = k
    · simp [adel, aget, hp, hk]
    · simp [adel, aget, hp, ih]

theorem mem_keys_of_aget_some {l : List (K × V)} {k : K} {v : V}
    (h : aget l k = some v) : k ∈ keys l := by
  induction l with
  | nil => simp [aget] at h
  | cons p t ih =>
    obtain ⟨k₀, v₀⟩ := p
    rw [keys_cons]
    by_cases hp : k₀ = k
    · exact List.mem_cons.mpr (Or.inl hp.symm)
    · simp [aget, hp] at h
      exact List.mem_cons.mpr (Or.inr (ih h))

theorem aget_eq_none_of_not_mem {l : List (K × V)} {k : K}
    (h : k ∉ keys l) : aget l k = none := by
  induction l with
  | nil => rfl
  | cons p t ih =>
    obtain ⟨k₀, v₀⟩ := p
    rw [keys_cons] at h
    have h1 : ¬(k₀ = k) := fun hh => h (List.mem_cons.mpr (Or.inl hh.symm))
    have h2 : k ∉ keys t := fun hh => h (List.mem_cons.mpr (Or.inr hh))
    simp [aget, h1, ih h2]

theorem exists_aget_of_mem_keys {l : List (K × V)} {k : K}
    (h : k ∈ keys l) : ∃ v, aget l k = some v := by
  induction l with
  | nil => simp [keys] at h
  | cons p t ih =>
    obtain ⟨k₀, v₀⟩ := p
    by_cases hp : k₀ = k
    · exact ⟨v₀, by simp [aget, hp]⟩
    · rw [keys_cons] at h
      rcases List.mem_cons.mp h with h | h
      · exact absurd h.symm hp
      · obtain ⟨v, hv⟩ := ih h
        exact ⟨v, by simp [aget, hp, hv]⟩

theorem aget_adel_self {l : List (K × V)} {k : K}
    (h : (keys l).Nodup) : aget (adel l k) k = none := by
  induction l with
  | nil => rfl
  | cons p t ih =>
    obtain ⟨k₀, v₀⟩ := p
    rw [keys_cons, List.nodup_cons] at h
    by_cases hp : k₀ = k
    · have : aget t k = none := aget_eq_none_of_not_mem (hp ▸ h.1)
      simpa [adel, if_pos hp] using this
    · simp [adel, aget, hp]
      exact ih h.2

theorem keys_aset_of_mem {l : List (K × V)} {k : K} (v : V)
    (h : k ∈ keys l) : keys (aset l k v) = keys l := by
  induction l with
  | nil => simp [keys] at h
  | cons p t ih =>
    obtain ⟨k₀, v₀⟩ := p
    by_cases hp : k₀ = k
    · simp [aset, hp, keys]
    · rw [keys_cons] at h
      rcases List.mem_cons.mp h with h | h
      · exact absurd h.symm hp
      · simp [aset, hp, keys_cons, ih h]

theorem keys_aset_of_not_mem {l : List (K × V)} {k : K} (v : V)
    (h : k ∉ keys l) : keys (aset l k v) = keys l ++ [k] := by
  induction l with
  | nil => simp [aset, keys]
  | cons p t ih =>
    obtain ⟨k₀, v₀⟩ := p
    rw [keys_cons] at h
    have h1 : ¬(k₀ = k) := fun hh => h (List.mem_cons.mpr (Or.inl hh.symm))
    have h2 : k ∉ keys t := fun hh => h (List.mem_cons.mpr (Or.inr hh))
    simp [aset, h1, keys_cons, ih h2]

theorem nodup_keys_aset {l : List (K × V)} {k : K} (v : V)
    (h : (keys l).Nodup) : (keys (aset l k v)).Nodup := by
  by_cases hm : k ∈ keys l
  · rwa [keys_aset_of_mem v hm]
  · rw [keys_aset_of_not_mem v hm]
    simp [List.nodup_append, h, hm]

theorem keys_adel_sublist (l : List (K × V)) (k : K) :
    (keys (adel l k)).Sublist (keys l) := by
  induction l with
  | nil => simp [adel]
  | cons p t ih =>
    obtain ⟨k₀, v₀⟩ := p
    by_cases hp : k₀ = k
    · simp [adel, hp, keys]
    · simp only [adel, if_neg hp, keys_cons]
      exact ih.cons₂ _

theorem nodup_keys_adel {l : List (K × V)} (k : K)
    (h : (keys l).Nodup) : (keys (adel l k)).Nodup :=
  (keys_adel_sublist l k).nodup h

theorem mem_of_mem_aset {l : List (K × V)} {k : K} {v : V} {p : K × V}
    (h : p ∈ aset l k v) : p = (k, v) ∨ p ∈ l := by
  induction l with
  | nil => simpa [aset] using h
  | cons q t ih =>
    obtain ⟨k₀, v₀⟩ := q
    by_cases hq : k₀ = k
    · simp [aset, hq] at h
      rcases h with h | h
      · exact Or.inl (by simp [h])
      · exact Or.inr (List.mem_cons_of_mem _ h)
    · simp only [aset, if_neg hq, List.mem_cons] at h
      rcases h with h | h
      · exact Or.inr (by simp [h])
      · rcases ih h with h' | h'
        · exact Or.inl h'
        · exact Or.inr (List.mem_cons_of_mem _ h')

theorem mem_of_mem_adel {l : List (K × V)} {k : K} {p : K × V}
    (h : p ∈ adel l k) : p ∈ l := by
  induction l with
  | nil => simpa [adel] using h
  | cons q t ih =>
    obtain ⟨k₀, v₀⟩ := q
    by_cases hq : k₀ = k
    · simp [adel, hq] at h
      exact List.mem_cons_of_mem _ h
    · simp only [adel, if_neg hq, List.mem_cons] at h
      rcases h with h | h
      · simp [h]
      · exact List.mem_cons_of_mem _ (ih h)

theorem aget_of_mem_nodup {l : List (K × V)} {k : K} {v : V}
    (hnd : (keys l).Nodup) (h : (k, v) ∈ l) : aget l k = some v := by
  induction l with
  | nil => simp at h
  | cons p t ih =>
    obtain ⟨k₀, v₀⟩ := p
    rw [keys_cons, List.nodup_cons] at hnd
    rcases List.mem_cons.mp h with h | h
    · have h1 : k₀ = k := by simpa using congrArg Prod.fst h.symm
      have h2 : v₀ = v := by simpa using congrArg Prod.snd h.symm
      simp [aget, h1, h2]
    · have hk : k ∈ keys t := by
        have := List.mem_map_of_mem Prod.fst h
        simpa [keys] using this
      have hp : ¬(k₀ = k) := fun hh => hnd.1 (hh ▸ hk)
      simp [aget, hp, ih hnd.2 h]

theorem adel_aset_fresh {l : List (K × V)} {k : K} (v : V)
    (h : k ∉ keys l) : adel (aset l k v) k = l := by
  induction l with
  | nil => simp [aset, adel]
  | cons p t ih =>
    obtain ⟨k₀, v₀⟩ := p
    rw [keys_cons] at h
    have h1 : ¬(k₀ = k) := fun hh => h (List.mem_cons.mpr (Or.inl hh.symm))
    have h2 : k ∉ keys t := fun hh => h (List.mem_cons.mpr (Or.inr hh))
    simp [aset, adel, h1, ih h2]

theorem aset_ne_nil (l : List (K × V)) (k : K) (v : V) : aset l k v ≠ [] := by
  cases l with
  | nil => simp [aset]
  | cons p t =>
    obtain ⟨k₀, v₀⟩ := p
    by_cases hp : k₀ = k <;> simp [aset, hp]

theorem mem_of_aget_some {l : List (K × V)} {k : K} {v : V}
    (h : aget l k = some v) : (k, v) ∈ l := by
  induction l with
  | nil => simp [aget] at h
  | cons p t ih =>
    obtain ⟨k₀, v₀⟩ := p
    by_cases hp : k₀ = k
    · simp [aget, hp] at h
      simp [hp, h]
    · simp [aget, hp] at h
      exact List.mem_cons_of_mem _ (ih h)

theorem adel_eq_nil {l : List (K × V)} {k : K}
    (h : adel l k = []) : l = [] ∨ ∃ v, l = [(k, v)] := by
  cases l with
  | nil => exact Or.inl rfl
  | cons p t =>
    obtain ⟨k₀, v₀⟩ := p
    by_cases hp : k₀ = k
    · simp [adel, hp] at h
      exact Or.inr ⟨v₀, by simp [hp, h]⟩
    · simp [adel, hp] at h

end PyPVAsync

namespace PyPVAsync

/-! ## `MonitorCallback` (SubscriptionRequest) — `epics/callback_registry.py`

`self._hash_tuple = (self.chid, self.mask, self.ftype)`, `__hash__` hashes
this tuple, and `__eq__` compares the two hashes.  We embed CPython's hash
of a non-negative `int` and its tuple hash (64-bit build). -/

/-- `dbr.SubscriptionType.DBE_VALUE | dbr.SubscriptionType.DBE_ALARM`
(EPICS: `DBE_VALUE = 1`, `DBE_ALARM = 4`). -/
def default_mask : Nat := 5

/-- A `MonitorCallback`: channel id (normalised to an integer), positive
subscription mask, and requested field (DBR) type. -/
structure MonitorCallback where
  chid : Nat
  mask : Nat
  ftype : Nat
deriving DecidableEq, Repr

/-- The constructor check: `if mask <= 0: raise ValueError(...)`. -/
def mkMonitorCallback (chid mask ftype : Nat) : Option MonitorCallback :=
  if mask = 0 then none else some ⟨chid, mask, ftype⟩

/-- CPython's hash modulus on a 64-bit build (`sys.hash_info.modulus`). -/
def pyHashModulus : Nat := 2 ^ 61 - 1

/-- CPython hash of a non-negative `int` on a 64-bit build. -/
def pyHashInt (n : Nat) : Nat := n % pyHashModulus

def u64 : Nat := 2 ^ 64

/-- 64-bit rotate left by 31, as in CPython's `tuplehash`. -/
def rotl31 (x : Nat) : Nat := ((x <<< 31) % u64) ||| (x >>> 33)

def xxPrime1 : Nat := 11400714785074694791
def xxPrime2 : Nat := 14029467366897019727
def xxPrime5 : Nat := 2870177450012600261

/-- One lane of CPython's xxHash-style tuple hash. -/
def xxStep (acc lane : Nat) : Nat :=
  (rotl31 ((acc + lane * xxPrime2) % u64) * xxPrime1) % u64

/-- CPython's `tuplehash` (3.8+, 64-bit) over the element hashes. -/
def pyHashTuple (hs : List Nat) : Nat :=
  let acc := hs.foldl xxStep xxPrime5
  let acc := (acc + Nat.xor hs.length (Nat.xor xxPrime5 3527539)) % u64
  if acc = u64 - 1 then 1546275796 else acc

/-- `__hash__`: `hash(self._hash_tuple)`. -/
def MonitorCallback.pyHash (m : MonitorCallback) : Nat :=
  pyHashTuple [pyHashInt m.chid, pyHashInt m.mask, pyHashInt m.ftype]

/-- `__eq__`: `hash(self) == hash(other)`. -/
def MonitorCallback.eqPy (a b : MonitorCallback) : Bool :=
  a.pyHash == b.pyHash

/-- The transport-level error surfaced by the modelled fragments. -/
inductive PyExc where
  | typeError
  | keyError
  | valueError
  | notImplementedError
deriving DecidableEq, Repr

/-- `__ge__` ("covers"): raises `TypeError` across channels, otherwise
`(other.mask & self.mask) == other.mask and self.ftype >= other.ftype`. -/
def MonitorCallback.ge (a b : MonitorCallback) : Except PyExc Bool :=
  if a.chid ≠ b.chid then .error .typeError
  else .ok (decide (Nat.land b.mask a.mask = b.mask) && decide (b.ftype ≤ a.ftype))

/-- C4: for SubscriptionRequests on the same channel, `A.covers(B)` holds
iff `(B.mask & A.mask) == B.mask` and `A.dataFormat ≥ B.dataFormat`; on
different channels the comparison always fails with the cross-channel
`TypeError`, whatever the masks and formats. -/
theorem covers_same_channel_C4 (a b : MonitorCallback) :
    (a.chid = b.chid →
      (MonitorCallback.ge a b = .ok true ↔
        (Nat.land b.mask a.mask = b.mask ∧ b.ftype ≤ a.ftype))) ∧
    (a.chid ≠ b.chid → MonitorCallback.ge a b = .error .typeError) := by
  constructor
  · intro h
    simp [MonitorCallback.ge, h]
  · intro h
    simp [MonitorCallback.ge, h]

/-- Witness for C4 at a concrete pair on the same channel. -/
theorem covers_same_channel_C4_witness :
    MonitorCallback.ge ⟨7, 5, 14⟩ ⟨7, 1, 14⟩ = .ok true :=
  ((covers_same_channel_C4 ⟨7, 5, 14⟩ ⟨7, 1, 14⟩).1 rfl).mpr (by decide)

/-- C5 counterexample: equality is hash-comparison, and CPython's integer
hash reduces mod `2^61 - 1`, so the requests `(1, 2^61 - 1, 1)` and
`(1, 2*(2^61 - 1), 1)` compare equal although their masks differ —
refuting "A == B iff all three attributes are equal". -/
theorem eq_not_fieldwise_C5_counterexample :
    MonitorCallback.eqPy ⟨1, 2305843009213693951, 1⟩ ⟨1, 4611686018427387902, 1⟩ = true ∧
    ¬((1 : Nat) = 1 ∧ (2305843009213693951 : Nat) = 4611686018427387902 ∧
      (1 : Nat) = 1) := by
  exact ⟨by decide, by decide⟩

/-- C5 (amended): `A == B` iff the CPython hashes of the two attribute
triples coincide; consequently attribute-wise equality implies `A == B`,
and `hash(A) == hash(B)` whenever `A == B` — but `A == B` does not imply
attribute-wise equality. -/
theorem eq_hash_based_C5 (a b : MonitorCallback) :
    ((a.chid = b.chid ∧ a.mask = b.mask ∧ a.ftype = b.ftype) →
      MonitorCallback.eqPy a b = true) ∧
    (MonitorCallback.eqPy a b = true ↔ a.pyHash = b.pyHash) := by
  constructor
  · rintro ⟨h1, h2, h3⟩
    have hab : a = b := by cases a; cases b; simp_all
    simp [hab, MonitorCallback.eqPy]
  · simp [MonitorCallback.eqPy]

/-- Witness for C5's amended claim at a concrete pair. -/
theorem eq_hash_based_C5_witness :
    MonitorCallback.eqPy ⟨3, 5, 14⟩ ⟨3, 5, 14⟩ = true :=
  (eq_hash_based_C5 ⟨3, 5, 14⟩ ⟨3, 5, 14⟩).1 ⟨rfl, rfl, rfl⟩

/-! ## `ChannelCallbackRegistry` — `epics/callback_registry.py`

The registry state mirrors the class attributes: `ignore_exceptions`,
`allowed_sigs`, the nested `callbacks` table
(`signal → channel → (cbid → func)`), the monotone `_cbid` counter, the
reverse index `_cbid_map` and the `_oneshots` dict.  Listeners are
functions `Nat → P → Except Ex Unit` (they receive `chid` and the
dispatch payload); the error value `Ex` abstracts the raised exception
together with its traceback (`sys.exc_info()[2]`), which is what
`process` appends to its `exceptions` list. -/

/-- Errors surfaced by the registry: `ValueError` for a disallowed
signal, `KeyError` for an unknown callback id, or a listener's own
exception propagating out of `process`. -/
inductive RegErr (Ex : Type) where
  | valueError
  | keyError
  | listener (e : Ex)
deriving DecidableEq

/-- The state of a `ChannelCallbackRegistry`. -/
structure CCR (Sig P Ex : Type) where
  ignore_exceptions : Bool
  allowed_sigs : Option (List Sig)
  callbacks : List (Sig × List (Nat × List (Nat × (Nat → P → Except Ex Unit))))
  cbid : Nat
  cbid_map : List (Nat × (Sig × Nat))
  oneshots : List (Nat × Bool)

variable {Sig P Ex : Type} [DecidableEq Sig]

/-- `__init__(ignore_exceptions, allowed_sigs)`. -/
def CCR.init (ignore : Bool) (allowed : Option (List Sig)) : CCR Sig P Ex :=
  { ignore_exceptions := ignore, allowed_sigs := allowed,
    callbacks := [], cbid := 0, cbid_map := [], oneshots := [] }

/-- The `allowed_sigs` guard shared by `subscribe` and `process`. -/
def CCR.sigOK (s : CCR Sig P Ex) (sig : Sig) : Bool :=
  match s.allowed_sigs with
  | none => true
  | some al => decide (sig ∈ al)

/-- The state produced by a successful `subscribe`: allocate
`cbid = self._cbid + 1`, create nested buckets via `setdefault`, store
the listener, record the reverse index entry and the one-shot mark. -/
def CCR.subState (s : CCR Sig P Ex) (sig : Sig) (chid : Nat)
    (f : Nat → P → Except Ex Unit) (oneshot : Bool) : CCR Sig P Ex :=
  let i := s.cbid + 1
  let sm := (aget s.callbacks sig).getD []
  let cm := (aget sm chid).getD []
  { s with
    cbid := i,
    callbacks := aset s.callbacks sig (aset sm chid (aset cm i f)),
    cbid_map := aset s.cbid_map i (sig, chid),
    oneshots := if oneshot then aset s.oneshots i true else s.oneshots }

/-- `subscribe(sig, chid, func, oneshot)`: checks `allowed_sigs`, then
performs the registration and returns the new callback id. -/
def CCR.subscribe (s : CCR Sig P Ex) (sig : Sig) (chid : Nat)
    (f : Nat → P → Except Ex Unit) (oneshot : Bool) :
    Except (RegErr Ex) (Nat × CCR Sig P Ex) :=
  if s.sigOK sig then .ok (s.cbid + 1, s.subState sig chid f oneshot)
  else .error .valueError

/-- `unsubscribe(cbid)`: looks the id up in the reverse index (raising
`KeyError` if absent), removes it from both structures, prunes the
now-empty `(sig, chid)` bucket, and drops the one-shot mark.  (In the
source a failing later `del` would leave the earlier deletions in
place; that partial mutation is unreachable from states satisfying the
registry invariant, and the model returns the unchanged state on
error.) -/
def CCR.unsubscribe (s : CCR Sig P Ex) (i : Nat) :
    Except (RegErr Ex) (CCR Sig P Ex) :=
  match aget s.cbid_map i with
  | none => .error .keyError
  | some (sig, chid) =>
    match aget s.callbacks sig with
    | none => .error .keyError
    | some sm =>
      match aget sm chid with
      | none => .error .keyError
      | some cm =>
        if (aget cm i).isNone then .error .keyError
        else
          let cm' := adel cm i
          let sm' := if cm'.isEmpty then adel sm chid else aset sm chid cm'
          .ok { s with
            cbid_map := adel s.cbid_map i,
            callbacks := aset s.callbacks sig sm',
            oneshots := adel s.oneshots i }

/-- The loop body of `process`: iterate the snapshot
`list(callbacks.items())`, invoke each listener, and in the `finally`
block unsubscribe it if it was one-shot.  Returns the final state, the
ids invoked in order, and either the collected exceptions
(`ignore_exceptions` true) or the first propagating failure. -/
def CCR.processLoop (pay : P) (chid : Nat) :
    List (Nat × (Nat → P → Except Ex Unit)) → CCR Sig P Ex →
    CCR Sig P Ex × List Nat × Except (RegErr Ex) (List Ex)
  | [], s => (s, [], .ok [])
  | (i, f) :: rest, s =>
    let oneshot := (aget s.oneshots i).getD false
    match f chid pay with
    | .ok _ =>
      match (if oneshot then s.unsubscribe i else .ok s) with
      | .error e => (s, [i], .error e)
      | .ok s1 =>
        let r := CCR.processLoop pay chid rest s1
        (r.1, i :: r.2.1, r.2.2)
    | .error ex =>
      if s.ignore_exceptions then
        match (if oneshot then s.unsubscribe i else .ok s) with
        | .error e => (s, [i], .error e)
        | .ok s1 =>
          let r := CCR.processLoop pay chid rest s1
          (r.1, i :: r.2.1, r.2.2.map (fun es => ex :: es))
      else
        match (if oneshot then s.unsubscribe i else .ok s) with
        | .error e => (s, [i], .error e)
        | .ok s1 => (s1, [i], .error (.listener ex))

/-- `process(sig, chid, payload)`: checks `allowed_sigs`, returns `None`
(here `.ok none`) when no bucket exists for the signal or the channel,
otherwise runs the dispatch loop over a snapshot of the bucket and
returns the collected exception list. -/
def CCR.process (s : CCR Sig P Ex) (sig : Sig) (chid : Nat) (pay : P) :
    CCR Sig P Ex × List Nat × Except (RegErr Ex) (Option (List Ex)) :=
  if s.sigOK sig then
    match aget s.callbacks sig with
    | none => (s, [], .ok none)
    | some sm =>
      match aget sm chid with
      | none => (s, [], .ok none)
      | some bucket =>
        let r := CCR.processLoop pay chid bucket s
        (r.1, r.2.1, r.2.2.map some)
  else (s, [], .error .valueError)

/-- The exceptions raised by the listeners of a bucket, in bucket
(= invocation) order. -/
def failuresOf (pay : P) (chid : Nat)
    (l : List (Nat × (Nat → P → Except Ex Unit))) : List Ex :=
  l.filterMap fun p => match p.2 chid pay with
    | .ok _ => none
    | .error e => some e

/-- Membership of a callback id in the `(sig, chid)` bucket of the
nested table. -/
def CCR.inBucket (s : CCR Sig P Ex) (sig : Sig) (chid i : Nat) : Prop :=
  ∃ sm cm f, aget s.callbacks sig = some sm ∧ aget sm chid = some cm ∧
    aget cm i = some f

/-- The registry invariant: well-formed (`Nodup`-keyed) tables, eagerly
pruned `(sig, chid)` buckets, agreement between the nested table and the
reverse index, and all allocated ids bounded by the counter. -/
structure CCR.Inv (s : CCR Sig P Ex) : Prop where
  ndMap : (keys s.cbid_map).Nodup
  ndSig : (keys s.callbacks).Nodup
  ndCh : ∀ {sig sm}, aget s.callbacks sig = some sm → (keys sm).Nodup
  ndCb : ∀ {sig sm chid cm}, aget s.callbacks sig = some sm →
    aget sm chid = some cm → (keys cm).Nodup
  pruned : ∀ {sig sm chid cm}, aget s.callbacks sig = some sm →
    aget sm chid = some cm → cm ≠ []
  link : ∀ i sig chid, aget s.cbid_map i = some (sig, chid) ↔
    s.inBucket sig chid i
  bound : ∀ i p, (i, p) ∈ s.cbid_map → i ≤ s.cbid

/-- The empty registry satisfies the invariant. -/
theorem CCR.Inv_init (ignore : Bool) (allowed : Option (List Sig)) :
    (CCR.init ignore allowed : CCR Sig P Ex).Inv := by
  refine ⟨?_, ?_, ?_, ?_, ?_, ?_, ?_⟩ <;>
    simp [CCR.init, CCR.inBucket, keys, aget]

/-- A freshly allocated id is not yet in the reverse index. -/
theorem CCR.fresh_unregistered {s : CCR Sig P Ex} (hInv : s.Inv) :
    aget s.cbid_map (s.cbid + 1) = none := by
  cases h : aget s.cbid_map (s.cbid + 1) with
  | none => rfl
  | some p =>
    have := hInv.bound _ _ (mem_of_aget_some h)
    omega

/-- A freshly allocated id is in no bucket. -/
theorem CCR.not_inBucket_fresh {s : CCR Sig P Ex} (hInv : s.Inv)
    (g : Sig) (c : Nat) : ¬ s.inBucket g c (s.cbid + 1) := by
  intro hb
  have := (hInv.link _ g c).mpr hb
  rw [CCR.fresh_unregistered hInv] at this
  cases this

/-- If the chain down to a bucket is fixed, membership in that bucket is
lookup in it. -/
theorem CCR.inBucket_iff_of_chain {s : CCR Sig P Ex} {g : Sig}
    {sm : List (Nat × List (Nat × (Nat → P → Except Ex Unit)))}
    {c : Nat} {cm : List (Nat × (Nat → P → Except Ex Unit))}
    (h1 : aget s.callbacks g = some sm) (h2 : aget sm c = some cm)
    (j : Nat) : s.inBucket g c j ↔ ∃ fn, aget cm j = some fn := by
  constructor
  · rintro ⟨sm0, cm0, f0, e1, e2, e3⟩
    rw [h1] at e1
    cases e1
    rw [h2] at e2
    cases e2
    exact ⟨f0, e3⟩
  · rintro ⟨f0, e3⟩
    exact ⟨sm, cm, f0, h1, h2, e3⟩

theorem CCR.not_inBucket_of_no_sig {s : CCR Sig P Ex} {g : Sig}
    (h1 : aget s.callbacks g = none) (c j : Nat) : ¬ s.inBucket g c j := by
  rintro ⟨sm0, cm0, f0, e1, _, _⟩
  rw [h1] at e1
  cases e1

theorem CCR.not_inBucket_of_no_chid {s : CCR Sig P Ex} {g : Sig}
    {sm : List (Nat × List (Nat × (Nat → P → Except Ex Unit)))} {c : Nat}
    (h1 : aget s.callbacks g = some sm) (h2 : aget sm c = none)
    (j : Nat) : ¬ s.inBucket g c j := by
  rintro ⟨sm0, cm0, f0, e1, e2, _⟩
  rw [h1] at e1
  cases e1
  rw [h2] at e2
  cases e2

theorem CCR.inBucket_congr {s s' : CCR Sig P Ex} {g : Sig} {c j : Nat}
    (h : aget s'.callbacks g = aget s.callbacks g) :
    (s'.inBucket g c j ↔ s.inBucket g c j) := by
  unfold CCR.inBucket
  simp only [h]

/-- Bucket membership after `subscribe`: exactly the new registration
plus everything already present. -/
theorem CCR.inBucket_subState_iff (s : CCR Sig P Ex) (sig : Sig)
    (chid : Nat) (f : Nat → P → Except Ex Unit) (os : Bool)
    (g : Sig) (c j : Nat) :
    (s.subState sig chid f os).inBucket g c j ↔
      ((g = sig ∧ c = chid ∧ j = s.cbid + 1) ∨ s.inBucket g c j) := by
  have hcb : (s.subState sig chid f os).callbacks =
      aset s.callbacks sig
        (aset ((aget s.callbacks sig).getD []) chid
          (aset ((aget ((aget s.callbacks sig).getD []) chid).getD [])
            (s.cbid + 1) f)) := rfl
  by_cases hg : g = sig
  · subst hg
    have e1 : aget (s.subState g chid f os).callbacks g =
        some (aset ((aget s.callbacks g).getD []) chid
          (aset ((aget ((aget s.callbacks g).getD []) chid).getD [])
            (s.cbid + 1) f)) := by
      rw [hcb]
      exact aget_aset_self _ _ _
    by_cases hc : c = chid
    · subst hc
      have e2 := aget_aset_self ((aget s.callbacks g).getD []) c
        (aset ((aget ((aget s.callbacks g).getD []) c).getD [])
          (s.cbid + 1) f)
      rw [CCR.inBucket_iff_of_chain e1 e2]
      by_cases hj : j = s.cbid + 1
      · subst hj
        simp [aget_aset_self]
      · rw [show aget (aset ((aget ((aget s.callbacks g).getD []) c).getD [])
              (s.cbid + 1) f) j =
            aget ((aget ((aget s.callbacks g).getD []) c).getD []) j from
          aget_aset_ne _ _ hj]
        simp only [hj, and_false, false_or]
        cases h1 : aget s.callbacks g with
        | none =>
          simp only [Option.getD_none]
          constructor
          · rintro ⟨f0, hf0⟩
            simp [aget] at hf0
          · intro hb
            exact absurd hb (CCR.not_inBucket_of_no_sig h1 _ _)
        | some sm =>
          simp only [Option.getD_some]
          cases h2 : aget sm c with
          | none =>
            simp only [Option.getD_none]
            constructor
            · rintro ⟨f0, hf0⟩
              simp [aget] at hf0
            · intro hb
              exact absurd hb (CCR.not_inBucket_of_no_chid h1 h2 _)
          | some cm =>
            simp only [Option.getD_some]
            exact (CCR.inBucket_iff_of_chain h1 h2 j).symm
    · have e2 : aget (aset ((aget s.callbacks g).getD []) chid
            (aset ((aget ((aget s.callbacks g).getD []) chid).getD [])
              (s.cbid + 1) f)) c =
          aget ((aget s.callbacks g).getD []) c := aget_aset_ne _ _ hc
      simp only [hc, false_and, and_false, false_or]
      cases h1 : aget s.callbacks g with
      | none =>
        rw [h1] at e1 e2
        simp only [Option.getD_none] at e1 e2
        rw [show aget ([] : List (Nat × List (Nat × (Nat → P → Except Ex Unit)))) c
            = none from rfl] at e2
        constructor
        · intro hb
          exact absurd hb (CCR.not_inBucket_of_no_chid e1 e2 _)
        · intro hb
          exact absurd hb (CCR.not_inBucket_of_no_sig h1 _ _)
      | some sm =>
        rw [h1] at e1 e2
        simp only [Option.getD_some] at e1 e2
        cases h2 : aget sm c with
        | none =>
          rw [h2] at e2
          constructor
          · intro hb
            exact absurd hb (CCR.not_inBucket_of_no_chid e1 e2 _)
          · intro hb
            exact absurd hb (CCR.not_inBucket_of_no_chid h1 h2 _)
        | some cm =>
          rw [h2] at e2
          rw [CCR.inBucket_iff_of_chain e1 e2, CCR.inBucket_iff_of_chain h1 h2]
  · have hcg : aget (s.subState sig chid f os).callbacks g =
        aget s.callbacks g := by
      rw [hcb]
      exact aget_aset_ne _ _ hg
    rw [CCR.inBucket_congr hcg]
    simp [hg]

/-- Reverse-index lookup after `subscribe`. -/
theorem CCR.subState_map_lookup (s : CCR Sig P Ex) (sig : Sig)
    (chid : Nat) (f : Nat → P → Except Ex Unit) (os : Bool) (j : Nat) :
    aget (s.subState sig chid f os).cbid_map j =
      if j = s.cbid + 1 then some (sig, chid) else aget s.cbid_map j := by
  unfold CCR.subState
  simp only
  by_cases hj : j = s.cbid + 1
  · subst hj
    simp [aget_aset_self]
  · simp [hj, aget_aset_ne _ _ hj]

/-- `subscribe` preserves the registry invariant. -/
theorem CCR.Inv_subState {s : CCR Sig P Ex} (hInv : s.Inv)
    (sig : Sig) (chid : Nat) (f : Nat → P → Except Ex Unit) (os : Bool) :
    (s.subState sig chid f os).Inv := by
  have hndSm : (keys ((aget s.callbacks sig).getD [])).Nodup := by
    cases h : aget s.callbacks sig with
    | none => simp [keys]
    | some sm => exact hInv.ndCh h
  have hndCm :
      (keys ((aget ((aget s.callbacks sig).getD []) chid).getD [])).Nodup := by
    cases h1 : aget s.callbacks sig with
    | none => simp [keys, aget]
    | some sm =>
      simp only [Option.getD_some]
      cases h2 : aget sm chid with
      | none => simp [keys]
      | some cm => exact hInv.ndCb h1 h2
  have hcb : (s.subState sig chid f os).callbacks =
      aset s.callbacks sig
        (aset ((aget s.callbacks sig).getD []) chid
          (aset ((aget ((aget s.callbacks sig).getD []) chid).getD [])
            (s.cbid + 1) f)) := rfl
  constructor
  · exact nodup_keys_aset _ hInv.ndMap
  · exact nodup_keys_aset _ hInv.ndSig
  · intro g sm' h
    rw [hcb] at h
    by_cases hg : g = sig
    · subst hg
      rw [aget_aset_self] at h
      cases h
      exact nodup_keys_aset _ hndSm
    · rw [aget_aset_ne _ _ hg] at h
      exact hInv.ndCh h
  · intro g sm' c cm' h h2
    rw [hcb] at h
    by_cases hg : g = sig
    · subst hg
      rw [aget_aset_self] at h
      cases h
      by_cases hc : c = chid
      · subst hc
        rw [aget_aset_self] at h2
        cases h2
        exact nodup_keys_aset _ hndCm
      · rw [aget_aset_ne _ _ hc] at h2
        cases h1 : aget s.callbacks g with
        | none =>
          rw [h1] at h2
          simp [aget] at h2
        | some sm =>
          rw [h1] at h2
          simp only [Option.getD_some] at h2
          exact hInv.ndCb h1 h2
    · rw [aget_aset_ne _ _ hg] at h
      exact hInv.ndCb h h2
  · intro g sm' c cm' h h2
    rw [hcb] at h
    by_cases hg : g = sig
    · subst hg
      rw [aget_aset_self] at h
      cases h
      by_cases hc : c = chid
      · subst hc
        rw [aget_aset_self] at h2
        cases h2
        exact aset_ne_nil _ _ _
      · rw [aget_aset_ne _ _ hc] at h2
        cases h1 : aget s.callbacks g with
        | none =>
          rw [h1] at h2
          simp [aget] at h2
        | some sm =>
          rw [h1] at h2
          simp only [Option.getD_some] at h2
          exact hInv.pruned h1 h2
    · rw [aget_aset_ne _ _ hg] at h
      exact hInv.pruned h h2
  · intro j g c
    rw [CCR.subState_map_lookup, CCR.inBucket_subState_iff]
    by_cases hj : j = s.cbid + 1
    · subst hj
      simp only [if_true, Option.some.injEq, Prod.mk.injEq, and_true]
      constructor
      · rintro ⟨h1, h2⟩
        exact Or.inl ⟨h1.symm, h2.symm⟩
      · rintro (⟨h1, h2⟩ | hb)
        · exact ⟨h1.symm, h2.symm⟩
        · exact absurd hb (CCR.not_inBucket_fresh hInv g c)
    · rw [if_neg hj]
      constructor
      · intro h
        exact Or.inr ((hInv.link j g c).mp h)
      · rintro (⟨_, _, h3⟩ | hb)
        · exact absurd h3 hj
        · exact (hInv.link j g c).mpr hb
  · intro j p hmem
    have hmem' : (j, p) ∈ aset s.cbid_map (s.cbid + 1) (sig, chid) := hmem
    rcases mem_of_mem_aset hmem' with h | h
    · have : j = s.cbid + 1 := by simpa using congrArg Prod.fst h
      simp only [CCR.subState]
      omega
    · have := hInv.bound _ _ h
      simp only [CCR.subState]
      omega

/-- Decomposition of a successful `subscribe`. -/
theorem CCR.subscribe_ok_iff {s : CCR Sig P Ex} {sig : Sig} {chid : Nat}
    {f : Nat → P → Except Ex Unit} {os : Bool} {i : Nat}
    {s' : CCR Sig P Ex} :
    s.subscribe sig chid f os = .ok (i, s') ↔
      (s.sigOK sig = true ∧ i = s.cbid + 1 ∧
        s' = s.subState sig chid f os) := by
  unfold CCR.subscribe
  by_cases h : s.sigOK sig <;> simp [h, eq_comm]

/-- Decomposition of a successful `unsubscribe`: the id was registered,
the chain down to its bucket exists, and the new state deletes it from
the reverse index, the bucket (pruning the bucket if it became empty)
and the one-shot set. -/
theorem CCR.unsubscribe_cases {s : CCR Sig P Ex} {i : Nat}
    {s' : CCR Sig P Ex} (h : s.unsubscribe i = .ok s') :
    ∃ sig chid sm cm fn,
      aget s.cbid_map i = some (sig, chid) ∧
      aget s.callbacks sig = some sm ∧
      aget sm chid = some cm ∧
      aget cm i = some fn ∧
      s' = { s with
        cbid_map := adel s.cbid_map i,
        callbacks := aset s.callbacks sig
          (if (adel cm i).isEmpty then adel sm chid
           else aset sm chid (adel cm i)),
        oneshots := adel s.oneshots i } := by
  unfold CCR.unsubscribe at h
  cases h1 : aget s.cbid_map i with
  | none => rw [h1] at h; cases h
  | some p =>
    obtain ⟨sig, chid⟩ := p
    rw [h1] at h
    dsimp only at h
    cases h2 : aget s.callbacks sig with
    | none => rw [h2] at h; cases h
    | some sm =>
      rw [h2] at h
      dsimp only at h
      cases h3 : aget sm chid with
      | none => rw [h3] at h; cases h
      | some cm =>
        rw [h3] at h
        dsimp only at h
        cases h4 : aget cm i with
        | none => rw [h4] at h; simp at h
        | some fn =>
          rw [h4] at h
          simp only [Option.isNone_some, Bool.false_eq_true, if_false,
            Except.ok.injEq] at h
          exact ⟨sig, chid, sm, cm, fn, rfl, h2, h3, h4, h.symm⟩

/-- `unsubscribe` succeeds on every registered id. -/
theorem CCR.unsubscribe_total {s : CCR Sig P Ex} (hInv : s.Inv) {i : Nat}
    {sig : Sig} {chid : Nat}
    (h : aget s.cbid_map i = some (sig, chid)) :
    ∃ s', s.unsubscribe i = .ok s' := by
  obtain ⟨sm, cm, fn, h1, h2, h3⟩ := (hInv.link i sig chid).mp h
  refine ⟨{ s with
    cbid_map := adel s.cbid_map i,
    callbacks := aset s.callbacks sig
      (if (adel cm i).isEmpty then adel sm chid
       else aset sm chid (adel cm i)),
    oneshots := adel s.oneshots i }, ?_⟩
  simp [CCR.unsubscribe, h, h1, h2, h3]

/-- Reverse-index lookup after `unsubscribe`. -/
theorem CCR.unsub_map_lookup {s : CCR Sig P Ex} (hInv : s.Inv) {i : Nat}
    {s' : CCR Sig P Ex} (hok : s.unsubscribe i = .ok s') (j : Nat) :
    aget s'.cbid_map j = if j = i then none else aget s.cbid_map j := by
  obtain ⟨sig, chid, sm, cm, fn, h1, h2, h3, h4, hs⟩ :=
    CCR.unsubscribe_cases hok
  subst hs
  by_cases hj : j = i
  · subst hj
    simp only [if_pos rfl]
    exact aget_adel_self hInv.ndMap
  · simp only [if_neg hj]
    exact aget_adel_ne _ hj

/-- Bucket membership after `unsubscribe`: everything except the removed
id. -/
theorem CCR.inBucket_unsub_iff {s : CCR Sig P Ex} (hInv : s.Inv) {i : Nat}
    {s' : CCR Sig P Ex} (hok : s.unsubscribe i = .ok s')
    (g : Sig) (c j : Nat) :
    s'.inBucket g c j ↔ (s.inBucket g c j ∧ j ≠ i) := by
  obtain ⟨sig, chid, sm, cm, fn, h1, h2, h3, h4, hs⟩ :=
    CCR.unsubscribe_cases hok
  have hndSm := hInv.ndCh h2
  have hndCm := hInv.ndCb h2 h3
  have hcb : s'.callbacks = aset s.callbacks sig
      (if (adel cm i).isEmpty then adel sm chid
       else aset sm chid (adel cm i)) := by
    rw [hs]
  by_cases hg : g = sig
  · subst hg
    have e1 : aget s'.callbacks g =
        some (if (adel cm i).isEmpty then adel sm chid
              else aset sm chid (adel cm i)) := by
      rw [hcb]
      exact aget_aset_self _ _ _
    by_cases hc : c = chid
    · subst hc
      by_cases hnil : (adel cm i).isEmpty
      · rw [if_pos hnil] at e1
        have e2 : aget (adel sm c) c = none := aget_adel_self hndSm
        have hL : ¬ s'.inBucket g c j := CCR.not_inBucket_of_no_chid e1 e2 j
        have hcm : cm = [(i, fn)] := by
          have hnil' : adel cm i = [] := by
            cases hemp : adel cm i with
            | nil => rfl
            | cons a t => rw [hemp] at hnil; simp [List.isEmpty] at hnil
          rcases adel_eq_nil hnil' with hn | ⟨v, hv⟩
          · rw [hn] at h4
            simp [aget] at h4
          · rw [hv] at h4
            simp [aget] at h4
            rw [hv, h4]
        constructor
        · intro hb
          exact absurd hb hL
        · rintro ⟨hb, hji⟩
          rw [CCR.inBucket_iff_of_chain h2 h3 j] at hb
          obtain ⟨f0, hf0⟩ := hb
          rw [hcm] at hf0
          by_cases hij : i = j
          · exact absurd hij.symm hji
          · simp [aget, hij] at hf0
      · rw [if_neg hnil] at e1
        have e2 : aget (aset sm c (adel cm i)) c = some (adel cm i) :=
          aget_aset_self _ _ _
        rw [CCR.inBucket_iff_of_chain e1 e2,
          CCR.inBucket_iff_of_chain h2 h3]
        by_cases hj : j = i
        · subst hj
          simp [aget_adel_self hndCm]
        · rw [aget_adel_ne _ hj]
          simp [hj]
    · have e2 : aget (if (adel cm i).isEmpty then adel sm chid
          else aset sm chid (adel cm i)) c = aget sm c := by
        by_cases hnil : (adel cm i).isEmpty
        · rw [if_pos hnil]
          exact aget_adel_ne _ hc
        · rw [if_neg hnil]
          exact aget_aset_ne _ _ hc
      cases h5 : aget sm c with
      | none =>
        have hL := CCR.not_inBucket_of_no_chid e1 (e2.trans h5) j
        have hR := CCR.not_inBucket_of_no_chid h2 h5 j
        constructor
        · intro hb
          exact absurd hb hL
        · rintro ⟨hb, _⟩
          exact absurd hb hR
      | some cm2 =>
        rw [CCR.inBucket_iff_of_chain e1 (e2.trans h5),
          CCR.inBucket_iff_of_chain h2 h5]
        constructor
        · rintro ⟨f0, hf0⟩
          refine ⟨⟨f0, hf0⟩, ?_⟩
          intro hji
          have hb : s.inBucket g c i := ⟨sm, cm2, f0, h2, h5, hji ▸ hf0⟩
          have hlink := (hInv.link i g c).mpr hb
          rw [h1] at hlink
          have h6 : chid = c := by simpa using hlink
          exact hc h6.symm
        · rintro ⟨⟨f0, hf0⟩, _⟩
          exact ⟨f0, hf0⟩
  · have hcg : aget s'.callbacks g = aget s.callbacks g := by
      rw [hcb]
      exact aget_aset_ne _ _ hg
    rw [CCR.inBucket_congr hcg]
    constructor
    · intro hb
      refine ⟨hb, ?_⟩
      intro hji
      have hlink := (hInv.link i g c).mpr (hji ▸ hb)
      rw [h1] at hlink
      have h6 : sig = g ∧ chid = c := by simpa using hlink
      exact hg h6.1.symm
    · rintro ⟨hb, _⟩
      exact hb

/-- `unsubscribe` preserves the registry invariant. -/
theorem CCR.Inv_unsubscribe {s : CCR Sig P Ex} (hInv : s.Inv) {i : Nat}
    {s' : CCR Sig P Ex} (hok : s.unsubscribe i = .ok s') : s'.Inv := by
  obtain ⟨sig, chid, sm, cm, fn, h1, h2, h3, h4, hs⟩ :=
    CCR.unsubscribe_cases hok
  have hndSm := hInv.ndCh h2
  have hndCm := hInv.ndCb h2 h3
  constructor
  · rw [hs]
    exact nodup_keys_adel _ hInv.ndMap
  · rw [hs]
    exact nodup_keys_aset _ hInv.ndSig
  · intro g sm' h
    rw [hs] at h
    by_cases hg : g = sig
    · subst hg
      rw [aget_aset_self] at h
      cases h
      by_cases hnil : (adel cm i).isEmpty
      · rw [if_pos hnil]
        exact nodup_keys_adel _ hndSm
      · rw [if_neg hnil]
        exact nodup_keys_aset _ hndSm
    · rw [aget_aset_ne _ _ hg] at h
      exact hInv.ndCh h
  · intro g sm' c cm' h h5
    rw [hs] at h
    by_cases hg : g = sig
    · subst hg
      rw [aget_aset_self] at h
      cases h
      by_cases hc : c = chid
      · subst hc
        by_cases hnil : (adel cm i).isEmpty
        · rw [if_pos hnil] at h5
          rw [aget_adel_self hndSm] at h5
          cases h5
        · rw [if_neg hnil] at h5
          rw [aget_aset_self] at h5
          cases h5
          exact nodup_keys_adel _ hndCm
      · by_cases hnil : (adel cm i).isEmpty
        · rw [if_pos hnil] at h5
          rw [aget_adel_ne _ hc] at h5
          exact hInv.ndCb h2 h5
        · rw [if_neg hnil] at h5
          rw [aget_aset_ne _ _ hc] at h5
          exact hInv.ndCb h2 h5
    · rw [aget_aset_ne _ _ hg] at h
      exact hInv.ndCb h h5
  · intro g sm' c cm' h h5
    rw [hs] at h
    by_cases hg : g = sig
    · subst hg
      rw [aget_aset_self] at h
      cases h
      by_cases hc : c = chid
      · subst hc
        by_cases hnil : (adel cm i).isEmpty
        · rw [if_pos hnil] at h5
          rw [aget_adel_self hndSm] at h5
          cases h5
        · rw [if_neg hnil] at h5
          rw [aget_aset_self] at h5
          cases h5
          intro hemp
          rw [hemp] at hnil
          simp [List.isEmpty] at hnil
      · by_cases hnil : (adel cm i).isEmpty
        · rw [if_pos hnil] at h5
          rw [aget_adel_ne _ hc] at h5
          exact hInv.pruned h2 h5
        · rw [if_neg hnil] at h5
          rw [aget_aset_ne _ _ hc] at h5
          exact hInv.pruned h2 h5
    · rw [aget_aset_ne _ _ hg] at h
      exact hInv.pruned h h5
  · intro j g c
    rw [CCR.unsub_map_lookup hInv hok, CCR.inBucket_unsub_iff hInv hok]
    by_cases hj : j = i
    · subst hj
      simp
    · rw [if_neg hj]
      rw [hInv.link j g c]
      simp [hj]
  · intro j p hmem
    rw [hs] at hmem
    have : s'.cbid = s.cbid := by rw [hs]
    rw [hs]
    exact hInv.bound _ _ (mem_of_mem_adel hmem)

/-- `unsubscribe` leaves the configuration flags and the id counter
unchanged. -/
theorem CCR.unsub_fields {s : CCR Sig P Ex} {i : Nat} {s' : CCR Sig P Ex}
    (hok : s.unsubscribe i = .ok s') :
    s'.ignore_exceptions = s.ignore_exceptions ∧
      s'.allowed_sigs = s.allowed_sigs ∧ s'.cbid = s.cbid := by
  obtain ⟨sig, chid, sm, cm, fn, h1, h2, h3, h4, hs⟩ :=
    CCR.unsubscribe_cases hok
  rw [hs]
  exact ⟨rfl, rfl, rfl⟩

/-- The `finally` step of the dispatch loop: on a registered id it
always yields a state, preserving the invariant, the counter, the flag,
and the registration of every other id. -/
theorem CCR.step_ok {s : CCR Sig P Ex} (hInv : s.Inv) {i : Nat} {g : Sig}
    {c : Nat} (hregi : aget s.cbid_map i = some (g, c)) :
    ∃ s1, (if (aget s.oneshots i).getD false then s.unsubscribe i
           else .ok s) = .ok s1 ∧
      s1.Inv ∧ s1.cbid = s.cbid ∧
      s1.ignore_exceptions = s.ignore_exceptions ∧
      ∀ j, j ≠ i → aget s1.cbid_map j = aget s.cbid_map j := by
  by_cases ho : (aget s.oneshots i).getD false
  · obtain ⟨s1, hok⟩ := CCR.unsubscribe_total hInv hregi
    exact ⟨s1, by rw [if_pos ho]; exact hok, CCR.Inv_unsubscribe hInv hok,
      (CCR.unsub_fields hok).2.2, (CCR.unsub_fields hok).1,
      fun j hj => by rw [CCR.unsub_map_lookup hInv hok, if_neg hj]⟩
  · exact ⟨s, by rw [if_neg ho], hInv, rfl, rfl, fun j hj => rfl⟩

theorem failuresOf_nil (pay : P) (ch : Nat) :
    failuresOf pay ch ([] : List (Nat × (Nat → P → Except Ex Unit))) = [] :=
  rfl

theorem failuresOf_cons (pay : P) (ch : Nat) (i : Nat)
    (f : Nat → P → Except Ex Unit)
    (rest : List (Nat × (Nat → P → Except Ex Unit))) :
    failuresOf pay ch ((i, f) :: rest) =
      (match f ch pay with
       | .ok _ => failuresOf pay ch rest
       | .error e => e :: failuresOf pay ch rest) := by
  unfold failuresOf
  rw [List.filterMap_cons]
  dsimp only
  cases f ch pay <;> rfl

/-- The dispatch loop over a bucket snapshot whose ids are all
registered: with `ignore_exceptions` set, it invokes every listener of
the snapshot exactly once, in order, and collects exactly the raised
exceptions, in invocation order. -/
theorem CCR.processLoop_ignore (pay : P) (ch : Nat) (g : Sig) (c : Nat)
    (l : List (Nat × (Nat → P → Except Ex Unit))) :
    ∀ s : CCR Sig P Ex, s.Inv → s.ignore_exceptions = true →
      (∀ p ∈ l, aget s.cbid_map p.1 = some (g, c)) → (keys l).Nodup →
      (CCR.processLoop pay ch l s).2.1 = keys l ∧
      (CCR.processLoop pay ch l s).2.2 = .ok (failuresOf pay ch l) := by
  induction l with
  | nil =>
    intro s _ _ _ _
    exact ⟨rfl, rfl⟩
  | cons p rest ih =>
    obtain ⟨i, f⟩ := p
    intro s hInv hig hreg hnd
    have hregi : aget s.cbid_map i = some (g, c) := hreg (i, f) (by simp)
    rw [keys_cons] at hnd
    obtain ⟨hni, hndt⟩ := List.nodup_cons.mp hnd
    obtain ⟨s1, hu, hInv1, hcb1, hig1, hmap1⟩ := CCR.step_ok hInv hregi
    have hreg1 : ∀ q ∈ rest, aget s1.cbid_map q.1 = some (g, c) := by
      intro q hq
      have hqk : q.1 ∈ keys rest := List.mem_map_of_mem Prod.fst hq
      have hne : q.1 ≠ i := fun he => hni (he ▸ hqk)
      rw [hmap1 _ hne]
      exact hreg q (List.mem_cons_of_mem _ hq)
    obtain ⟨ih1, ih2⟩ := ih s1 hInv1 (hig1.trans hig) hreg1 hndt
    unfold CCR.processLoop
    rw [failuresOf_cons]
    dsimp only
    cases hf : f ch pay with
    | ok u =>
      dsimp only
      rw [hu]
      dsimp only
      rw [keys_cons]
      exact ⟨by rw [ih1], by rw [ih2]⟩
    | error ex =>
      dsimp only
      rw [if_pos hig]
      rw [hu]
      dsimp only
      rw [keys_cons]
      refine ⟨by rw [ih1], ?_⟩
      rw [ih2]
      rfl

/-- The dispatch loop when no listener of the snapshot raises: every
listener is invoked, in order, and the collected failures are empty
(whatever `ignore_exceptions` is). -/
theorem CCR.processLoop_allok (pay : P) (ch : Nat) (g : Sig) (c : Nat)
    (l : List (Nat × (Nat → P → Except Ex Unit))) :
    ∀ s : CCR Sig P Ex, s.Inv →
      (∀ p ∈ l, aget s.cbid_map p.1 = some (g, c)) → (keys l).Nodup →
      (∀ p ∈ l, p.2 ch pay = .ok ()) →
      (CCR.processLoop pay ch l s).2.1 = keys l ∧
      (CCR.processLoop pay ch l s).2.2 = .ok [] := by
  induction l with
  | nil =>
    intro s _ _ _ _
    exact ⟨rfl, rfl⟩
  | cons p rest ih =>
    obtain ⟨i, f⟩ := p
    intro s hInv hreg hnd hok
    have hregi : aget s.cbid_map i = some (g, c) := hreg (i, f) (by simp)
    rw [keys_cons] at hnd
    obtain ⟨hni, hndt⟩ := List.nodup_cons.mp hnd
    obtain ⟨s1, hu, hInv1, hcb1, hig1, hmap1⟩ := CCR.step_ok hInv hregi
    have hreg1 : ∀ q ∈ rest, aget s1.cbid_map q.1 = some (g, c) := by
      intro q hq
      have hqk : q.1 ∈ keys rest := List.mem_map_of_mem Prod.fst hq
      have hne : q.1 ≠ i := fun he => hni (he ▸ hqk)
      rw [hmap1 _ hne]
      exact hreg q (List.mem_cons_of_mem _ hq)
    have hok1 : ∀ q ∈ rest, q.2 ch pay = .ok () :=
      fun q hq => hok q (List.mem_cons_of_mem _ hq)
    obtain ⟨ih1, ih2⟩ := ih s1 hInv1 hreg1 hndt hok1
    unfold CCR.processLoop
    dsimp only
    cases hf : f ch pay with
    | ok u =>
      dsimp only
      rw [hu]
      dsimp only
      rw [keys_cons]
      exact ⟨by rw [ih1], by rw [ih2]⟩
    | error ex =>
      have := hok (i, f) (by simp)
      dsimp only at this
      rw [hf] at this
      cases this

/-- The dispatch loop with `ignore_exceptions` unset, split at the first
raising listener: the prefix and the raising listener are invoked, the
failure propagates as-is, and nothing after it runs. -/
theorem CCR.processLoop_raise (pay : P) (ch : Nat) (g : Sig) (c : Nat)
    (pre : List (Nat × (Nat → P → Except Ex Unit))) :
    ∀ (i₀ : Nat) (f₀ : Nat → P → Except Ex Unit)
      (post : List (Nat × (Nat → P → Except Ex Unit)))
      (s : CCR Sig P Ex) (e : Ex),
      s.Inv → s.ignore_exceptions = false →
      (∀ p ∈ pre ++ (i₀, f₀) :: post, aget s.cbid_map p.1 = some (g, c)) →
      (keys (pre ++ (i₀, f₀) :: post)).Nodup →
      (∀ p ∈ pre, p.2 ch pay = .ok ()) →
      f₀ ch pay = .error e →
      (CCR.processLoop pay ch (pre ++ (i₀, f₀) :: post) s).2.1 =
        keys pre ++ [i₀] ∧
      (CCR.processLoop pay ch (pre ++ (i₀, f₀) :: post) s).2.2 =
        .error (.listener e) := by
  induction pre with
  | nil =>
    intro i₀ f₀ post s e hInv hig hreg hnd hpre hf₀
    have hregi : aget s.cbid_map i₀ = some (g, c) :=
      hreg (i₀, f₀) (by simp)
    obtain ⟨s1, hu, _, _, _, _⟩ := CCR.step_ok hInv hregi
    rw [List.nil_append]
    unfold CCR.processLoop
    dsimp only
    rw [hf₀]
    dsimp only
    rw [if_neg (by rw [hig]; exact Bool.false_ne_true)]
    rw [hu]
    dsimp only
    exact ⟨rfl, rfl⟩
  | cons p pre' ih =>
    obtain ⟨i, f⟩ := p
    intro i₀ f₀ post s e hInv hig hreg hnd hpre hf₀
    have hregi : aget s.cbid_map i = some (g, c) := hreg (i, f) (by simp)
    rw [List.cons_append, keys_cons] at hnd
    obtain ⟨hni, hndt⟩ := List.nodup_cons.mp hnd
    obtain ⟨s1, hu, hInv1, hcb1, hig1, hmap1⟩ := CCR.step_ok hInv hregi
    have hreg1 : ∀ q ∈ pre' ++ (i₀, f₀) :: post,
        aget s1.cbid_map q.1 = some (g, c) := by
      intro q hq
      have hqk : q.1 ∈ keys (pre' ++ (i₀, f₀) :: post) :=
        List.mem_map_of_mem Prod.fst hq
      have hne : q.1 ≠ i := fun he => hni (he ▸ hqk)
      rw [hmap1 _ hne]
      exact hreg q (by
        rw [List.cons_append]
        exact List.mem_cons_of_mem _ hq)
    have hpre1 : ∀ q ∈ pre', q.2 ch pay = .ok () :=
      fun q hq => hpre q (List.mem_cons_of_mem _ hq)
    obtain ⟨ih1, ih2⟩ := ih i₀ f₀ post s1 e hInv1 (hig1.trans hig)
      hreg1 hndt hpre1 hf₀
    have hfok : f ch pay = .ok () := hpre (i, f) (by simp)
    rw [List.cons_append]
    unfold CCR.processLoop
    dsimp only
    rw [hfok]
    dsimp only
    rw [hu]
    dsimp only
    rw [keys_cons]
    exact ⟨by rw [ih1, List.cons_append], by rw [ih2]⟩

/-- Every id the dispatch loop invokes comes from the snapshot. -/
theorem CCR.processLoop_invoked_sub (pay : P) (ch : Nat)
    (l : List (Nat × (Nat → P → Except Ex Unit))) :
    ∀ (s : CCR Sig P Ex) (j : Nat),
      j ∈ (CCR.processLoop pay ch l s).2.1 → j ∈ keys l := by
  induction l with
  | nil =>
    intro s j h
    simp [CCR.processLoop] at h
  | cons p rest ih =>
    obtain ⟨i, f⟩ := p
    intro s j h
    rw [keys_cons]
    unfold CCR.processLoop at h
    dsimp only at h
    cases hf : f ch pay with
    | ok u =>
      rw [hf] at h
      dsimp only at h
      cases hu : (if (aget s.oneshots i).getD false then s.unsubscribe i
          else .ok s) with
      | error e =>
        rw [hu] at h
        dsimp only at h
        rw [List.mem_singleton] at h
        exact List.mem_cons.mpr (Or.inl h)
      | ok s1 =>
        rw [hu] at h
        dsimp only at h
        rcases List.mem_cons.mp h with h | h
        · exact List.mem_cons.mpr (Or.inl h)
        · exact List.mem_cons.mpr (Or.inr (ih s1 j h))
    | error ex =>
      rw [hf] at h
      dsimp only at h
      by_cases hig : s.ignore_exceptions
      · rw [if_pos hig] at h
        cases hu : (if (aget s.oneshots i).getD false then s.unsubscribe i
            else .ok s) with
        | error e =>
          rw [hu] at h
          dsimp only at h
          rw [List.mem_singleton] at h
          exact List.mem_cons.mpr (Or.inl h)
        | ok s1 =>
          rw [hu] at h
          dsimp only at h
          rcases List.mem_cons.mp h with h | h
          · exact List.mem_cons.mpr (Or.inl h)
          · exact List.mem_cons.mpr (Or.inr (ih s1 j h))
      · rw [if_neg hig] at h
        cases hu : (if (aget s.oneshots i).getD false then s.unsubscribe i
            else .ok s) with
        | error e =>
          rw [hu] at h
          dsimp only at h
          rw [List.mem_singleton] at h
          exact List.mem_cons.mpr (Or.inl h)
        | ok s1 =>
          rw [hu] at h
          dsimp only at h
          rw [List.mem_singleton] at h
          exact List.mem_cons.mpr (Or.inl h)

/-- The dispatch loop preserves the invariant, the id counter and the
flag, whatever the listeners do. -/
theorem CCR.processLoop_inv (pay : P) (ch : Nat)
    (l : List (Nat × (Nat → P → Except Ex Unit))) :
    ∀ s : CCR Sig P Ex, s.Inv →
      (CCR.processLoop pay ch l s).1.Inv ∧
      (CCR.processLoop pay ch l s).1.cbid = s.cbid ∧
      (CCR.processLoop pay ch l s).1.ignore_exceptions =
        s.ignore_exceptions := by
  induction l with
  | nil =>
    intro s hInv
    exact ⟨hInv, rfl, rfl⟩
  | cons p rest ih =>
    obtain ⟨i, f⟩ := p
    intro s hInv
    have hstep : ∀ s1, (if (aget s.oneshots i).getD false
          then s.unsubscribe i else .ok s) = .ok s1 →
        s1.Inv ∧ s1.cbid = s.cbid ∧
          s1.ignore_exceptions = s.ignore_exceptions := by
      intro s1 hu
      by_cases ho : (aget s.oneshots i).getD false
      · rw [if_pos ho] at hu
        exact ⟨CCR.Inv_unsubscribe hInv hu, (CCR.unsub_fields hu).2.2,
          (CCR.unsub_fields hu).1⟩
      · rw [if_neg ho] at hu
        cases hu
        exact ⟨hInv, rfl, rfl⟩
    unfold CCR.processLoop
    dsimp only
    cases hf : f ch pay with
    | ok u =>
      cases hu : (if (aget s.oneshots i).getD false then s.unsubscribe i
          else .ok s) with
      | error e =>
        exact ⟨hInv, rfl, rfl⟩
      | ok s1 =>
        obtain ⟨hInv1, hcb1, hig1⟩ := hstep s1 hu
        obtain ⟨a, b, c⟩ := ih s1 hInv1
        exact ⟨a, by rw [b, hcb1], by rw [c, hig1]⟩
    | error ex =>
      dsimp only
      by_cases hig : s.ignore_exceptions
      · rw [if_pos hig]
        cases hu : (if (aget s.oneshots i).getD false then s.unsubscribe i
            else .ok s) with
        | error e =>
          exact ⟨hInv, rfl, rfl⟩
        | ok s1 =>
          obtain ⟨hInv1, hcb1, hig1⟩ := hstep s1 hu
          obtain ⟨a, b, c⟩ := ih s1 hInv1
          exact ⟨a, by rw [b, hcb1], by rw [c, hig1]⟩
      · rw [if_neg hig]
        cases hu : (if (aget s.oneshots i).getD false then s.unsubscribe i
            else .ok s) with
        | error e =>
          exact ⟨hInv, rfl, rfl⟩
        | ok s1 =>
          obtain ⟨hInv1, hcb1, hig1⟩ := hstep s1 hu
          exact ⟨hInv1, hcb1, hig1⟩

/-- `process` on an existing `(sig, chid)` bucket runs the dispatch loop
over a snapshot of that bucket. -/
theorem CCR.process_bucket {s : CCR Sig P Ex} {sig : Sig} {chid : Nat}
    {sm : List (Nat × List (Nat × (Nat → P → Except Ex Unit)))}
    {bucket : List (Nat × (Nat → P → Except Ex Unit))}
    (hok : s.sigOK sig = true)
    (h1 : aget s.callbacks sig = some sm) (h2 : aget sm chid = some bucket)
    (pay : P) :
    s.process sig chid pay =
      ((CCR.processLoop pay chid bucket s).1,
       (CCR.processLoop pay chid bucket s).2.1,
       (CCR.processLoop pay chid bucket s).2.2.map some) := by
  unfold CCR.process
  rw [if_pos hok, h1]
  dsimp only
  rw [h2]

/-- The three possible shapes of a `process` call: rejected signal,
missing bucket (silent no-op), or dispatch over the bucket snapshot. -/
theorem CCR.process_cases (s : CCR Sig P Ex) (sig : Sig) (chid : Nat)
    (pay : P) :
    (s.process sig chid pay = (s, [], .error .valueError) ∧
      s.sigOK sig = false) ∨
    (s.process sig chid pay = (s, [], .ok none)) ∨
    (∃ sm bucket, aget s.callbacks sig = some sm ∧
      aget sm chid = some bucket ∧
      s.process sig chid pay =
        ((CCR.processLoop pay chid bucket s).1,
         (CCR.processLoop pay chid bucket s).2.1,
         (CCR.processLoop pay chid bucket s).2.2.map some)) := by
  by_cases hok : s.sigOK sig
  · cases h1 : aget s.callbacks sig with
    | none =>
      refine Or.inr (Or.inl ?_)
      unfold CCR.process
      rw [if_pos hok, h1]
    | some sm =>
      cases h2 : aget sm chid with
      | none =>
        refine Or.inr (Or.inl ?_)
        unfold CCR.process
        rw [if_pos hok, h1]
        dsimp only
        rw [h2]
      | some bucket =>
        exact Or.inr (Or.inr ⟨sm, bucket, rfl, h2,
          CCR.process_bucket hok h1 h2 pay⟩)
  · refine Or.inl ⟨?_, by simpa using hok⟩
    unfold CCR.process
    rw [if_neg hok]

/-- Semantic reading of the invariant: an id is in some bucket iff it is
in the reverse index, and it is in at most one bucket. -/
def CCR.ExactlyOne (s : CCR Sig P Ex) : Prop :=
  ∀ i, ((∃ g c, s.inBucket g c i) ↔ i ∈ keys s.cbid_map) ∧
    ∀ g c g' c', s.inBucket g c i → s.inBucket g' c' i → g = g' ∧ c = c'

/-- Semantic reading of eager pruning: no `(sig, chid)` bucket hanging
in the table is empty. -/
def CCR.NoEmptyBuckets (s : CCR Sig P Ex) : Prop :=
  ∀ g sm c cm, aget s.callbacks g = some sm → aget sm c = some cm →
    cm ≠ []

theorem CCR.exactlyOne_of_inv {s : CCR Sig P Ex} (hInv : s.Inv) :
    s.ExactlyOne := by
  intro i
  constructor
  · constructor
    · rintro ⟨g, c, hb⟩
      exact mem_keys_of_aget_some ((hInv.link i g c).mpr hb)
    · intro hm
      obtain ⟨p, hp⟩ := exists_aget_of_mem_keys hm
      obtain ⟨g, c⟩ := p
      exact ⟨g, c, (hInv.link i g c).mp hp⟩
  · intro g c g' c' hb hb'
    have e1 := (hInv.link i g c).mpr hb
    have e2 := (hInv.link i g' c').mpr hb'
    rw [e1] at e2
    have := Option.some.inj e2
    exact ⟨congrArg Prod.fst this, congrArg Prod.snd this⟩

end PyPVAsync

namespace PyPVAsync

variable {Sig P Ex : Type} [DecidableEq Sig]

/-- C3: dispatching a `(signal, channel)` event over a bucket of
registered listeners: with `ignoreExceptions` set, every listener of
the snapshot is invoked exactly once, in order, and `process` returns
exactly the raised exceptions in invocation order (each exception value
carries its traceback, which identifies the raising listener); with
`ignoreExceptions` unset, the first failure propagates as a raised
exception and no later listener of that dispatch is invoked. -/
theorem dispatch_exceptions_C3 (s : CCR Sig P Ex) (sig : Sig)
    (chid : Nat) (pay : P)
    (sm : List (Nat × List (Nat × (Nat → P → Except Ex Unit))))
    (bucket : List (Nat × (Nat → P → Except Ex Unit)))
    (hInv : s.Inv) (hok : s.sigOK sig = true)
    (h1 : aget s.callbacks sig = some sm)
    (h2 : aget sm chid = some bucket) :
    (keys bucket).Nodup ∧
    (s.ignore_exceptions = true →
      (s.process sig chid pay).2.1 = keys bucket ∧
      (s.process sig chid pay).2.2 =
        .ok (some (failuresOf pay chid bucket))) ∧
    (s.ignore_exceptions = false →
      ∀ (pre : List (Nat × (Nat → P → Except Ex Unit))) (i₀ : Nat)
        (f₀ : Nat → P → Except Ex Unit)
        (post : List (Nat × (Nat → P → Except Ex Unit))) (e : Ex),
        bucket = pre ++ (i₀, f₀) :: post →
        (∀ p ∈ pre, p.2 chid pay = .ok ()) → f₀ chid pay = .error e →
        (s.process sig chid pay).2.1 = keys pre ++ [i₀] ∧
        (s.process sig chid pay).2.2 = .error (.listener e)) ∧
    ((∀ p ∈ bucket, p.2 chid pay = .ok ()) →
      (s.process sig chid pay).2.1 = keys bucket ∧
      (s.process sig chid pay).2.2 = .ok (some [])) := by
  have hnd : (keys bucket).Nodup := hInv.ndCb h1 h2
  have hreg : ∀ p ∈ bucket, aget s.cbid_map p.1 = some (sig, chid) := by
    intro p hp
    have hb : aget bucket p.1 = some p.2 :=
      aget_of_mem_nodup hnd (by simpa using hp)
    exact (hInv.link p.1 sig chid).mpr ⟨sm, bucket, p.2, h1, h2, hb⟩
  have hproc := CCR.process_bucket hok h1 h2 pay
  refine ⟨hnd, ?_, ?_, ?_⟩
  · intro hig
    obtain ⟨ha, hb⟩ := CCR.processLoop_ignore pay chid sig chid bucket s
      hInv hig hreg hnd
    rw [hproc]
    exact ⟨ha, by rw [hb]; rfl⟩
  · intro hig pre i₀ f₀ post e hsplit hpre hf₀
    subst hsplit
    obtain ⟨ha, hb⟩ := CCR.processLoop_raise pay chid sig chid pre i₀ f₀
      post s e hInv (by simpa using hig) hreg hnd hpre hf₀
    rw [hproc]
    exact ⟨ha, by rw [hb]; rfl⟩
  · intro hall
    obtain ⟨ha, hb⟩ := CCR.processLoop_allok pay chid sig chid bucket s
      hInv hreg hnd hall
    rw [hproc]
    exact ⟨ha, by rw [hb]; rfl⟩

/-- Witness for C3: a registry with `ignore_exceptions` set holding one
succeeding and one raising listener under `(sig, chid) = (0, 5)`;
dispatch invokes ids 1 and 2 in order and returns the single failure. -/
theorem dispatch_exceptions_C3_witness :
    ((((CCR.init true none : CCR Nat Unit Unit).subState 0 5
        (fun _ _ => .ok ()) false).subState 0 5
        (fun _ _ => .error ()) false).process 0 5 ()).2.1 = [1, 2] ∧
    ((((CCR.init true none : CCR Nat Unit Unit).subState 0 5
        (fun _ _ => .ok ()) false).subState 0 5
        (fun _ _ => .error ()) false).process 0 5 ()).2.2 =
      .ok (some [()]) := by
  have hInv1 : ((CCR.init true none : CCR Nat Unit Unit).subState 0 5
      (fun _ _ => .ok ()) false).Inv :=
    CCR.Inv_subState (CCR.Inv_init true none) 0 5 _ false
  have hInv2 : (((CCR.init true none : CCR Nat Unit Unit).subState 0 5
      (fun _ _ => .ok ()) false).subState 0 5
      (fun _ _ => .error ()) false).Inv :=
    CCR.Inv_subState hInv1 0 5 _ false
  have h := dispatch_exceptions_C3 _ 0 5 () _ _ hInv2 rfl rfl rfl
  exact h.2.1 rfl

/-- C9: registry invariants and their preservation: the invariant holds
initially and is preserved by `subscribe`, `unsubscribe` and `process`;
it means each registered callback id is in exactly one `(sig, chid)`
bucket and in the reverse index, with empty buckets pruned eagerly;
`subscribe` allocates the strictly increasing `cbid + 1` (ids are never
reused) while `unsubscribe`/`process` never rewind the counter; and
after subscribe-then-unsubscribe of the same id, that id is absent from
both structures and a subsequent dispatch never invokes it. -/
theorem registry_invariants_C9 :
    (∀ (ig : Bool) (al : Option (List Sig)),
      (CCR.init ig al : CCR Sig P Ex).Inv) ∧
    (∀ (s : CCR Sig P Ex) sig chid f os i s', s.Inv →
      s.subscribe sig chid f os = .ok (i, s') →
      s'.Inv ∧ i = s.cbid + 1 ∧ s'.cbid = s.cbid + 1 ∧
        aget s.cbid_map i = none) ∧
    (∀ (s : CCR Sig P Ex) i s', s.Inv → s.unsubscribe i = .ok s' →
      s'.Inv ∧ s'.cbid = s.cbid) ∧
    (∀ (s : CCR Sig P Ex) sig chid pay, s.Inv →
      (s.process sig chid pay).1.Inv ∧
      (s.process sig chid pay).1.cbid = s.cbid) ∧
    (∀ s : CCR Sig P Ex, s.Inv → s.ExactlyOne ∧ s.NoEmptyBuckets) ∧
    (∀ (s : CCR Sig P Ex) sig chid f os i s₁, s.Inv →
      s.subscribe sig chid f os = .ok (i, s₁) →
      ∃ s₂, s₁.unsubscribe i = .ok s₂ ∧
        aget s₂.cbid_map i = none ∧
        (∀ g c, ¬ s₂.inBucket g c i) ∧
        (∀ (pay : P) (sig' : Sig) (chid' : Nat),
          i ∉ (s₂.process sig' chid' pay).2.1)) := by
  refine ⟨CCR.Inv_init, ?_, ?_, ?_, ?_, ?_⟩
  · intro s sig chid f os i s' hInv hok
    obtain ⟨-, hi, hs⟩ := CCR.subscribe_ok_iff.mp hok
    subst hi
    subst hs
    exact ⟨CCR.Inv_subState hInv sig chid f os, rfl, rfl,
      CCR.fresh_unregistered hInv⟩
  · intro s i s' hInv hok
    exact ⟨CCR.Inv_unsubscribe hInv hok, (CCR.unsub_fields hok).2.2⟩
  · intro s sig chid pay hInv
    rcases CCR.process_cases s sig chid pay with ⟨he, -⟩ | he |
      ⟨sm, bucket, h1, h2, he⟩
    · rw [he]
      exact ⟨hInv, rfl⟩
    · rw [he]
      exact ⟨hInv, rfl⟩
    · rw [he]
      obtain ⟨a, b, -⟩ := CCR.processLoop_inv pay chid bucket s hInv
      exact ⟨a, b⟩
  · intro s hInv
    exact ⟨CCR.exactlyOne_of_inv hInv, fun g sm c cm h1 h2 =>
      hInv.pruned h1 h2⟩
  · intro s sig chid f os i s₁ hInv hok
    obtain ⟨-, hi, hs⟩ := CCR.subscribe_ok_iff.mp hok
    subst hi
    subst hs
    have hInv₁ := CCR.Inv_subState hInv sig chid f os
    have hreg : aget (s.subState sig chid f os).cbid_map (s.cbid + 1) =
        some (sig, chid) := by
      rw [CCR.subState_map_lookup]
      exact if_pos rfl
    obtain ⟨s₂, hok₂⟩ := CCR.unsubscribe_total hInv₁ hreg
    have hmap₂ : aget s₂.cbid_map (s.cbid + 1) = none := by
      rw [CCR.unsub_map_lookup hInv₁ hok₂]
      exact if_pos rfl
    have hbuck₂ : ∀ g c, ¬ s₂.inBucket g c (s.cbid + 1) := by
      intro g c hb
      exact ((CCR.inBucket_unsub_iff hInv₁ hok₂ g c _).mp hb).2 rfl
    refine ⟨s₂, hok₂, hmap₂, hbuck₂, ?_⟩
    intro pay sig' chid' hmem
    rcases CCR.process_cases s₂ sig' chid' pay with ⟨he, -⟩ | he |
      ⟨sm, bucket, h1, h2, he⟩
    · rw [he] at hmem
      simp at hmem
    · rw [he] at hmem
      simp at hmem
    · rw [he] at hmem
      have hk := CCR.processLoop_invoked_sub pay chid' bucket s₂ _ hmem
      obtain ⟨fn, hfn⟩ := exists_aget_of_mem_keys hk
      exact hbuck₂ sig' chid' ⟨sm, bucket, fn, h1, h2, hfn⟩

/-- Witness for C9: its preservation clauses applied to a concrete
subscription on the empty registry. -/
theorem registry_invariants_C9_witness :
    ((CCR.init false none : CCR Nat Unit Unit).subState 7 9
        (fun _ _ => .ok ()) false).Inv ∧
    (1 : Nat) = (CCR.init false none : CCR Nat Unit Unit).cbid + 1 ∧
    ((CCR.init false none : CCR Nat Unit Unit).subState 7 9
        (fun _ _ => .ok ()) false).cbid =
      (CCR.init false none : CCR Nat Unit Unit).cbid + 1 ∧
    aget (CCR.init false none : CCR Nat Unit Unit).cbid_map 1 = none :=
  (registry_invariants_C9.2.1 (CCR.init false none) 7 9
    (fun _ _ => .ok ()) false 1 _
    (CCR.Inv_init false none) (by rw [CCR.subscribe_ok_iff]; exact ⟨rfl, rfl, rfl⟩))

end PyPVAsync

namespace PyPVAsync

/-! ## `PV` — `epics/pv.py`

`self._args` starts as `dict(value=None, pvname=..., count=-1)`: `value`
and `count` are always-present keys (`count` is an `int`, initially
`-1`), every other metadata key is *absent* until first written, so it
is modelled as an `Option` whose `none` means "key missing"
(`enum_strs` is `Option (Option _)`: missing vs present-`None`).  The
cached value is modelled as a flag-and-elements pair: the flag records
whether the stored object is a numpy ndarray (as opposed to a plain
Python list), which the `as_numpy` normalisation of `get`
distinguishes via `isinstance`; the claims under verification are
about array-valued caches.  `dbr.Name` is a bijective renaming of the
DBR type code, so the `type`/`typefull`/`ftype` entries are modelled
by the code itself. -/

/-- Python whitespace, as `str.strip()` removes it (the ASCII
fragment). -/
def pyIsSpace (c : Char) : Bool :=
  c = ' ' ∨ c = '\t' ∨ c = '\n' ∨ c = '\r' ∨ c = '\x0b' ∨ c = '\x0c'

/-- `str.strip()`: drop leading and trailing whitespace. -/
def pyStrip (s : String) : String :=
  ⟨((s.data.dropWhile pyIsSpace).reverse.dropWhile pyIsSpace).reverse⟩

/-- `str.lower()` on the ASCII fragment (every string the claims test
is ASCII). -/
def pyLowerChar (c : Char) : Char :=
  if 'A' ≤ c ∧ c ≤ 'Z' then Char.ofNat (c.toNat + 32) else c

def pyLower (s : String) : String :=
  ⟨s.data.map pyLowerChar⟩

/-- `self.auto_monitor`: `None`, a bool, or an explicit int mask
(Python treats `True`/`False` as the ints `1`/`0`). -/
inductive AutoMon where
  | unset
  | abool (b : Bool)
  | aint (n : Nat)
deriving DecidableEq, Repr

/-- Python truthiness of `self.auto_monitor`. -/
def AutoMon.truthy : AutoMon → Bool
  | .unset => false
  | .abool b => b
  | .aint n => n ≠ 0

/-- `isinstance(self.auto_monitor, int)` — Python bools are ints, so an
explicit mask is extracted from both `aint` and `abool`. -/
def AutoMon.maskArg : AutoMon → Option Nat
  | .unset => none
  | .abool b => some (if b then 1 else 0)
  | .aint n => some n

/-- The state of a `PV` (the fields touched by the verified claims). -/
structure PVS where
  pvname : String
  form : String
  ctx : Nat
  connected : Bool
  auto_monitor : AutoMon
  /-- `self._monref`: subscription handle plus the mask passed to
  `ca.create_subscription`. -/
  monref : Option (Nat × Option Nat)
  /-- `self.callbacks`: user value-callback table (index keys only;
  the callables are irrelevant to the claims below). -/
  callbacks : List (Nat × Unit)
  /-- `self._args['value']`: `none` is Python `None`; an array cache is
  `(storedAsNdarray?, elements)` — reads/monitor deliveries store a
  1-D ndarray or a plain list depending on their own `as_numpy`. -/
  args_value : Option (Bool × List Int)
  args_count : Int
  args_nelm : Option Nat
  args_host : Option String
  args_access : Option String
  args_read_access : Option Bool
  args_write_access : Option Bool
  args_type : Option Nat
  args_typefull : Option Nat
  args_ftype : Option Nat
  args_enum_strs : Option (Option (List String))
deriving DecidableEq, Repr

/-- A `PV` as `__init__` leaves it (before any connection event):
`auto_monitor=None` by default, `_monref=None`, not connected, and
`_args = dict(value=None, pvname=..., count=-1)`. -/
def pvFresh (pvname form : String) (ctx : Nat) : PVS :=
  { pvname := pyStrip pvname, form := pyLower form, ctx := ctx,
    connected := false, auto_monitor := .unset, monref := none,
    callbacks := [],
    args_value := none, args_count := -1, args_nelm := none,
    args_host := none, args_access := none, args_read_access := none,
    args_write_access := none, args_type := none, args_typefull := none,
    args_ftype := none, args_enum_strs := none }

/-- The transport answers consumed by `__on_connect`
(`ca.element_count`, `ca.host_name`, `ca.access`, `ca.read_access`,
`ca.write_access`, `ca.promote_type`, the handle returned by
`ca.create_subscription`, and `ca.AUTOMONITOR_MAXLENGTH`). -/
structure CAEnv where
  element_count : Nat
  host_name : String
  access : String
  read_access : Nat
  write_access : Nat
  promoted : Nat
  sub_handle : Nat
  automonitor_maxlength : Nat
deriving DecidableEq, Repr

/-- `PV.__on_connect(pvname, chid, connected)`: the source guards the
whole metadata/auto-monitor/subscription block with `if not connected:`
(`pv.py` line 162), runs the connection-callback fan-out (modelled as
observers), and assigns `self.connected = connected` last. -/
def onConnect (s : PVS) (env : CAEnv) (conn : Bool) : PVS :=
  let s1 :=
    if conn = false then
      let count := env.element_count
      let s := { s with
        args_count := (count : Int), args_nelm := some count,
        args_host := some env.host_name,
        args_access := some env.access,
        args_read_access := some (env.read_access = 1),
        args_write_access := some (env.write_access = 1),
        args_type := some env.promoted,
        args_typefull := some env.promoted,
        args_ftype := some env.promoted }
      let s := if s.auto_monitor = .unset then
          { s with auto_monitor :=
              .abool (decide (count < env.automonitor_maxlength)) }
        else s
      if s.monref = none ∧ s.auto_monitor.truthy then
        { s with monref := some (env.sub_handle, s.auto_monitor.maskArg) }
      else s
    else s
  { s1 with connected := conn }

/-- The re-read condition of `PV.get` (`pv.py` lines 267-270):
`(not use_monitor) or (not self.auto_monitor) or
(self._args['value'] is None) or
(count is not None and count > len(self._args['value']))`. -/
def pvGetNeed (s : PVS) (count : Option Nat) (use_monitor : Bool) :
    Bool :=
  (!use_monitor) || (!s.auto_monitor.truthy) ||
  (match s.args_value with
   | none => true
   | some v => match count with
     | some k => decide (v.2.length < k)
     | none => false)

/-- A value returned by `PV.get` for an array cache after the
`as_numpy` normalisation (`pv.py` lines 283-296): a plain Python list,
a 1-D numpy array, or — when a non-ndarray value is wrapped by
`val = [val]; val = numpy.array(val)` — a 2-D numpy array, represented
by its list of rows (`numpy.array([l])` has shape `(1, len l)`, so its
Python `len` is 1). -/
inductive GetResult where
  | pylist (elems : List Int)
  | ndarray (elems : List Int)
  | ndarray2 (rows : List (List Int))
deriving DecidableEq, Repr

/-- Python `len` of a returned value (the outer dimension of a 2-D
array). -/
def GetResult.pyLen : GetResult → Nat
  | .pylist l => l.length
  | .ndarray l => l.length
  | .ndarray2 rows => rows.length

/-- `val[:c]`, on the outer dimension. -/
def GetResult.slice (c : Nat) : GetResult → GetResult
  | .pylist l => .pylist (l.take c)
  | .ndarray l => .ndarray (l.take c)
  | .ndarray2 rows => .ndarray2 (rows.take c)

/-- The scalar elements a returned value carries, in order. -/
def GetResult.elems : GetResult → List Int
  | .pylist l => l
  | .ndarray l => l
  | .ndarray2 rows => rows.flatten

/-- `PV.get(count, as_string=False, as_numpy, timeout, with_ctrlvars=False,
use_monitor)` — the cache/read/normalisation/truncation logic
(`pv.py` lines 262-297).  The transport read
`ca.get(..., count=count, as_numpy=as_numpy, ...)` is modelled by the
`transportRead` argument.  Returns (new state, result, whether a
transport read was issued). -/
def pvGet (s : PVS) (count : Option Nat) (as_numpy : Bool)
    (use_monitor : Bool) (transportRead : Bool × List Int) :
    PVS × Option GetResult × Bool :=
  let need := pvGetNeed s count use_monitor
  let s1 := if need then { s with args_value := some transportRead } else s
  match s1.args_value with
  | none => (s1, none, need)
  | some (nd, l) =>
    if s1.args_count ≤ 1 then
      (s1, some (if nd then .ndarray l else .pylist l), need)
    else
      let c := match count with
        | some k => k
        | none => l.length
      let val : GetResult :=
        if as_numpy ∧ ¬nd then
          (if c = 1 then GetResult.ndarray2 [l] else GetResult.ndarray l)
        else if as_numpy ∧ c = 1 ∧ ¬nd then
          GetResult.ndarray2 [l]
        else if ¬as_numpy ∧ nd then GetResult.pylist l
        else if nd then GetResult.ndarray l else GetResult.pylist l
      let val := if c < val.pyLen then val.slice c else val
      (s1, some val, need)

theorem pvGet_read_flag (s : PVS) (cnt : Option Nat) (an um : Bool)
    (tr : Bool × List Int) :
    (pvGet s cnt an um tr).2.2 = pvGetNeed s cnt um := by
  unfold pvGet
  dsimp only
  cases (if pvGetNeed s cnt um = true then { s with args_value := some tr }
      else s).args_value with
  | none => rfl
  | some p =>
    obtain ⟨nd, l⟩ := p
    dsimp only
    by_cases hc : (if pvGetNeed s cnt um = true
        then { s with args_value := some tr } else s).args_count ≤ 1
    · rw [if_pos hc]
    · rw [if_neg hc]

theorem pvGet_state (s : PVS) (cnt : Option Nat) (an um : Bool)
    (tr : Bool × List Int) :
    (pvGet s cnt an um tr).1 =
      (if pvGetNeed s cnt um then { s with args_value := some tr }
       else s) := by
  unfold pvGet
  dsimp only
  cases (if pvGetNeed s cnt um = true then { s with args_value := some tr }
      else s).args_value with
  | none => rfl
  | some p =>
    obtain ⟨nd, l⟩ := p
    dsimp only
    by_cases hc : (if pvGetNeed s cnt um = true
        then { s with args_value := some tr } else s).args_count ≤ 1
    · rw [if_pos hc]
    · rw [if_neg hc]

theorem pvGetNeed_iff (s : PVS) (cnt : Option Nat) (um : Bool) :
    pvGetNeed s cnt um = true ↔
      (um = false ∨ s.auto_monitor.truthy = false ∨ s.args_value = none ∨
       ∃ k v, cnt = some k ∧ s.args_value = some v ∧ v.2.length < k) := by
  unfold pvGetNeed
  cases um <;> cases hval : s.args_value <;> cases cnt <;> simp [hval]

/-- The result of `pvGet` on the scalar early-return path
(`if self.count <= 1 or val is None: return val`). -/
theorem pvGet_result_scalar (s : PVS) (nd : Bool) (l : List Int)
    (cnt : Option Nat) (an um : Bool) (tr : Bool × List Int)
    (hv : s.args_value = some (nd, l))
    (hneed : pvGetNeed s cnt um = false) (hcount : s.args_count ≤ 1) :
    (pvGet s cnt an um tr).2.1 =
      some (if nd then .ndarray l else .pylist l) := by
  unfold pvGet
  dsimp only
  rw [hneed, if_neg Bool.false_ne_true, hv]
  dsimp only
  rw [if_pos hcount]

/-- The result of `pvGet` on the array path, with the `as_numpy`
normalisation and the truncation spelled out. -/
theorem pvGet_result_array (s : PVS) (nd : Bool) (l : List Int) (k : Nat)
    (an um : Bool) (tr : Bool × List Int)
    (hv : s.args_value = some (nd, l))
    (hneed : pvGetNeed s (some k) um = false)
    (hcount : ¬ s.args_count ≤ 1) :
    (pvGet s (some k) an um tr).2.1 =
      some (
        let val : GetResult :=
          if an ∧ ¬nd then
            (if k = 1 then GetResult.ndarray2 [l] else GetResult.ndarray l)
          else if an ∧ k = 1 ∧ ¬nd then
            GetResult.ndarray2 [l]
          else if ¬an ∧ nd then GetResult.pylist l
          else if nd then GetResult.ndarray l else GetResult.pylist l
        if k < val.pyLen then val.slice k else val) := by
  unfold pvGet
  dsimp only
  rw [hneed, if_neg Bool.false_ne_true, hv]
  dsimp only
  rw [if_neg hcount]

/-- The put value: an enum `PV` may be written with a label string or an
integer index. -/
inductive PutVal where
  | str (s : String)
  | num (n : Nat)
deriving DecidableEq, Repr

/-- EPICS DBR type codes for the enumerated types checked by `PV.put`
(`dbr.ENUM`, `dbr.TIME_ENUM`, `dbr.CTRL_ENUM`). -/
def dbrENUM : Nat := 3
def dbrTIME_ENUM : Nat := 17
def dbrCTRL_ENUM : Nat := 31

/-- The index of the first exact match, as the `for ival, val in
enumerate(...)` loop with `break` computes it. -/
def firstIndexOf : List String → String → Nat
  | [], _ => 0
  | x :: t, s => if x = s then 0 else firstIndexOf t s + 1

/-- The enum-resolution step of `PV.put` (`pv.py` lines 308-318):
`argsEnum` is the current `self._args` entry for `'enum_strs'` (`none`
means the key is missing, making `self._args['enum_strs']` raise
`KeyError`); `fetch` is the `enum_strs` entry `get_ctrlvars` would
merge in; the returned flag records whether `get_ctrlvars` was called.
A present-`None` entry after the fetch leaves `value in None`, a
`TypeError`. -/
def putResolveEnum (ftype : Nat) (argsEnum : Option (Option (List String)))
    (fetch : Option (List String)) (v : PutVal) :
    Except PyExc (PutVal × Bool) :=
  match v with
  | .num n => .ok (.num n, false)
  | .str s =>
    if ftype = dbrENUM ∨ ftype = dbrTIME_ENUM ∨ ftype = dbrCTRL_ENUM then
      match argsEnum with
      | none => .error .keyError
      | some cur =>
        let fetched := cur.isNone
        let labels : Option (List String) :=
          match cur with
          | some ls => some ls
          | none => fetch
        match labels with
        | none => .error .typeError
        | some ls =>
          if s ∈ ls then .ok (.num (firstIndexOf ls s), fetched)
          else .ok (.str s, fetched)
    else .ok (.str s, false)

/-- The process-wide `_PVcache_` plus the ambient context, with a
counter handing out distinct instance identities to constructed `PV`
objects. -/
structure PVCacheSt where
  cache : List ((String × String × Nat) × Nat)
  nextId : Nat
  curCtx : Nat
deriving DecidableEq, Repr

/-- The cache-relevant effect of `PV.__init__(pvname, form=...)`:
normalise the name and form, allocate a fresh instance, and register it
in `_PVcache_` under `self._pvid` unless the key is already taken. -/
def pvInitCache (st : PVCacheSt) (pvname form : String) :
    Nat × PVCacheSt :=
  let name := pyStrip pvname
  let f := pyLower form
  let key := (name, f, st.curCtx)
  let id := st.nextId
  let cache' := if (aget st.cache key).isNone then aset st.cache key id
    else st.cache
  (id, { st with nextId := id + 1, cache := cache' })

/-- `get_pv(pvname, form, connect=False, context=None, ...)` (`pv.py`
lines 24-58): normalise the form, consult `_PVcache_` *only when the
context argument is `None`*, and construct a new `PV` when the lookup
did not produce one.  Returns the instance identity. -/
def get_pv (st : PVCacheSt) (pvname form : String)
    (context : Option Nat) : Nat × PVCacheSt :=
  let form' := if form = "native" ∨ form = "time" ∨ form = "ctrl"
    then form else "native"
  match context with
  | none =>
    match aget st.cache (pvname, form', st.curCtx) with
    | some id => (id, st)
    | none => pvInitCache st pvname form'
  | some _ => pvInitCache st pvname form'

/-- `PV.disconnect` (`pv.py` lines 725-750): set `connected = False`,
pop `self._pvid` from `_PVcache_`, then — if a live subscription exists
— raise `NotImplementedError` (leaving `_monref` and the user callbacks
untouched); otherwise clear the user callbacks.  The third component is
the raised exception, if any. -/
def pvDisconnect (s : PVS) (st : PVCacheSt) :
    PVS × PVCacheSt × Option PyExc :=
  let s1 := { s with connected := false }
  let key := (s1.pvname, s1.form, s1.ctx)
  let st1 := { st with cache := adel st.cache key }
  if s1.monref.isSome then (s1, st1, some .notImplementedError)
  else ({ s1 with callbacks := [] }, st1, none)

/-- C1 (code bug): the metadata/auto-monitor/subscription block of
`__on_connect` is guarded by `if not connected:`, so a connection event
with `connected=True` on a fresh `PV` changes nothing but the
`connected` flag — no element count, host or access flags are cached,
`auto_monitor` stays undecided and no live subscription is created —
while a `connected=False` event performs the whole population and even
creates the subscription, the exact opposite of the specified
behaviour. -/
theorem on_connect_inverted_C1 :
    onConnect (pvFresh "xx:m1" "time" 7)
        ⟨4, "ioc.example.net", "read/write", 1, 0, 19, 42, 65536⟩ true =
      { pvFresh "xx:m1" "time" 7 with connected := true } ∧
    onConnect (pvFresh "xx:m1" "time" 7)
        ⟨4, "ioc.example.net", "read/write", 1, 0, 19, 42, 65536⟩ false =
      { pvFresh "xx:m1" "time" 7 with
        args_count := 4, args_nelm := some 4,
        args_host := some "ioc.example.net",
        args_access := some "read/write",
        args_read_access := some true, args_write_access := some false,
        args_type := some 19, args_typefull := some 19,
        args_ftype := some 19,
        auto_monitor := .abool true,
        monref := some (42, some 1),
        connected := false } := by
  exact ⟨by decide, by decide⟩

/-- C2 (code bug): after a `connected=True` event on a fresh `PV`, the
handler has set `connected = True` (it is indeed assigned last) while
the element count is still the initial `-1` and host/access metadata
are still missing, so a reader can observe "connected" with unpopulated
metadata — the claimed invariant fails. -/
theorem connected_without_metadata_C2 :
    (onConnect (pvFresh "xx:m1" "time" 7)
        ⟨4, "ioc.example.net", "read/write", 1, 0, 19, 42, 65536⟩
        true).connected = true ∧
    (onConnect (pvFresh "xx:m1" "time" 7)
        ⟨4, "ioc.example.net", "read/write", 1, 0, 19, 42, 65536⟩
        true).args_host = none ∧
    (onConnect (pvFresh "xx:m1" "time" 7)
        ⟨4, "ioc.example.net", "read/write", 1, 0, 19, 42, 65536⟩
        true).args_nelm = none ∧
    (onConnect (pvFresh "xx:m1" "time" 7)
        ⟨4, "ioc.example.net", "read/write", 1, 0, 19, 42, 65536⟩
        true).args_count = -1 ∧
    (onConnect (pvFresh "xx:m1" "time" 7)
        ⟨4, "ioc.example.net", "read/write", 1, 0, 19, 42, 65536⟩
        true).args_access = none := by
  exact ⟨by decide, by decide, by decide, by decide, by decide⟩

/-- The array path of `pvGet`, with the `as_numpy` normalisation and
the truncation resolved: the requested prefix in the requested
representation, except that `count=1` with `as_numpy` and a
non-ndarray cache wraps the whole value. -/
theorem pvGet_array_norm (s : PVS) (nd : Bool) (l : List Int) (k : Nat)
    (an : Bool) (tr : Bool × List Int)
    (hv : s.args_value = some (nd, l))
    (hneed : pvGetNeed s (some k) true = false)
    (hcount : ¬ s.args_count ≤ 1)
    (hk1 : 1 ≤ k) (hkl : k ≤ l.length) :
    (pvGet s (some k) an true tr).2.1 =
      some (if an ∧ ¬nd ∧ k = 1 then GetResult.ndarray2 [l]
            else if an then GetResult.ndarray (l.take k)
            else GetResult.pylist (l.take k)) := by
  rw [pvGet_result_array s nd l k an true tr hv hneed hcount]
  have htake : l.take k = l ∨ k < l.length := by
    rcases Nat.lt_or_ge k l.length with h | h
    · exact Or.inr h
    · exact Or.inl (List.take_of_length_le h)
  cases an with
  | false =>
    cases nd with
    | false =>
      rcases htake with h | h <;> simp [GetResult.pyLen, GetResult.slice, h]
    | true =>
      rcases htake with h | h <;> simp [GetResult.pyLen, GetResult.slice, h]
  | true =>
    cases nd with
    | false =>
      by_cases hkone : k = 1
      · subst hkone
        simp [GetResult.pyLen, GetResult.slice]
      · rcases htake with h | h <;>
          simp [GetResult.pyLen, GetResult.slice, h, hkone]
    | true =>
      rcases htake with h | h <;> simp [GetResult.pyLen, GetResult.slice, h]

/-- C6 counterexample: a connected `PV` caching a plain (non-ndarray)
3-element list with monitoring in use.  `get(count=1,
use_monitor=True)` with the default `as_numpy=True` takes the
`val = [val]; val = numpy.array(val)` branch (`pv.py` lines 285-288);
the resulting `(1, 3)` array has Python `len` 1, so the truncation
`count < len(val)` is skipped and all three cached elements come back
instead of the first one — refuting "returns exactly the first k
cached elements (never fewer, never more)" at `k = 1`.  No transport
read is issued. -/
theorem get_count_one_wrap_C6_counterexample :
    (pvGet { pvFresh "xx:wave" "time" 7 with
              connected := true, auto_monitor := .abool true,
              args_value := some (false, [5, 6, 7]),
              args_count := 3 } (some 1) true true (false, [])).2.1 =
      some (.ndarray2 [[5, 6, 7]]) ∧
    (pvGet { pvFresh "xx:wave" "time" 7 with
              connected := true, auto_monitor := .abool true,
              args_value := some (false, [5, 6, 7]),
              args_count := 3 } (some 1) true true (false, [])).2.2 =
      false ∧
    (GetResult.ndarray2 [[5, 6, 7]]).elems = [5, 6, 7] ∧
    GetResult.ndarray2 [[5, 6, 7]] ≠ .pylist [5] ∧
    GetResult.ndarray2 [[5, 6, 7]] ≠ .ndarray [5] ∧
    GetResult.ndarray2 [[5, 6, 7]] ≠ .ndarray2 [[5]] := by
  exact ⟨by decide, by decide, by decide, by decide, by decide,
    by decide⟩

/-- C6 (amended): on a connected `PV` whose cache holds an array of
length `L` with monitoring in use, `get(count=k, use_monitor=True)`
with `1 ≤ k ≤ L` issues no transport read and leaves the state
untouched; it returns exactly the first `k` cached elements whenever
`as_numpy` is false, or the cached value is already a numpy array, or
`2 ≤ k`, or `L = 1` — but when `k = 1`, the cache holds a plain
(non-ndarray) list of length `L ≥ 2` and `as_numpy` is true (the
default), the value is wrapped into a `(1, L)` array carrying all `L`
cached elements.  A transport read, which replaces the cached value,
is issued exactly when the cache is unusable: `use_monitor` false,
monitoring disabled or undecided, no cached value yet, or more
elements requested than cached. -/
theorem get_cached_truncation_C6 (s : PVS) (nd : Bool) (l : List Int)
    (k L : Nat) (tr : Bool × List Int)
    (hv : s.args_value = some (nd, l)) (hL : l.length = L)
    (hc : s.args_count = (L : Int)) (hm : s.auto_monitor.truthy = true)
    (hk1 : 1 ≤ k) (hkL : k ≤ L) :
    (∀ an : Bool, (pvGet s (some k) an true tr).2.2 = false ∧
      (pvGet s (some k) an true tr).1 = s) ∧
    (∀ an : Bool, (an = false ∨ nd = true ∨ 2 ≤ k ∨ L = 1) →
      ∃ r, (pvGet s (some k) an true tr).2.1 = some r ∧
        GetResult.elems r = l.take k ∧ GetResult.pyLen r = k) ∧
    (nd = false → 2 ≤ L →
      (pvGet s (some 1) true true tr).2.1 = some (.ndarray2 [l]) ∧
      (GetResult.ndarray2 [l]).elems = l) ∧
    (∀ (s' : PVS) (cnt : Option Nat) (an um : Bool)
        (tr' : Bool × List Int),
      ((pvGet s' cnt an um tr').2.2 = true ↔
        (um = false ∨ s'.auto_monitor.truthy = false ∨
         s'.args_value = none ∨
         (∃ k' v', cnt = some k' ∧ s'.args_value = some v' ∧
           v'.2.length < k'))) ∧
      ((pvGet s' cnt an um tr').2.2 = true →
        (pvGet s' cnt an um tr').1.args_value = some tr') ∧
      ((pvGet s' cnt an um tr').2.2 = false →
        (pvGet s' cnt an um tr').1 = s')) := by
  have hneedAt : ∀ m : Nat, m ≤ L → pvGetNeed s (some m) true = false := by
    intro m hm'
    unfold pvGetNeed
    rw [hv, hm]
    simp
    omega
  refine ⟨?_, ?_, ?_, ?_⟩
  · intro an
    constructor
    · rw [pvGet_read_flag]
      exact hneedAt k hkL
    · rw [pvGet_state, hneedAt k hkL, if_neg Bool.false_ne_true]
  · intro an han
    by_cases hcount : s.args_count ≤ 1
    · have hL1 : L = 1 := by
        rw [hc] at hcount
        omega
      have htk : l.take k = l := List.take_of_length_le (by omega)
      refine ⟨if nd then .ndarray l else .pylist l,
        pvGet_result_scalar s nd l (some k) an true tr hv
          (hneedAt k hkL) hcount, ?_, ?_⟩
      · cases nd
        · simpa [GetResult.elems] using htk.symm
        · simpa [GetResult.elems] using htk.symm
      · cases nd
        · simp [GetResult.pyLen, hL]
          omega
        · simp [GetResult.pyLen, hL]
          omega
    · have hr := pvGet_array_norm s nd l k an tr hv (hneedAt k hkL)
        hcount hk1 (by omega)
      have hcond : ¬(an = true ∧ ¬(nd = true) ∧ k = 1) := by
        rcases han with h | h | h | h
        · rintro ⟨h1, -, -⟩
          rw [h] at h1
          cases h1
        · rintro ⟨-, h2, -⟩
          exact h2 h
        · rintro ⟨-, -, h3⟩
          omega
        · exact absurd (by rw [hc, h]; norm_num) hcount
      rw [if_neg hcond] at hr
      have hlen : (l.take k).length = k := by
        rw [List.length_take]
        omega
      by_cases han' : an = true
      · rw [if_pos han'] at hr
        exact ⟨GetResult.ndarray (l.take k), hr, rfl, hlen⟩
      · rw [if_neg han'] at hr
        exact ⟨GetResult.pylist (l.take k), hr, rfl, hlen⟩
  · intro hnd hL2
    have hcount : ¬ s.args_count ≤ 1 := by
      rw [hc]
      omega
    have hr := pvGet_array_norm s nd l 1 true tr hv
      (hneedAt 1 (by omega)) hcount (le_refl 1) (by omega)
    rw [if_pos ⟨rfl, by rw [hnd]; exact Bool.false_ne_true, rfl⟩] at hr
    exact ⟨hr, by simp [GetResult.elems]⟩
  · intro s' cnt an um tr'
    refine ⟨?_, ?_, ?_⟩
    · rw [pvGet_read_flag]
      exact pvGetNeed_iff s' cnt um
    · intro h
      rw [pvGet_read_flag] at h
      rw [pvGet_state, if_pos h]
    · intro h
      rw [pvGet_read_flag] at h
      rw [pvGet_state, h, if_neg Bool.false_ne_true]

/-- Witness for C6: a `PV` with a 10-element cached plain list asked
for 3 elements returns exactly the first 3 with no transport read. -/
theorem get_cached_truncation_C6_witness :
    (pvGet { pvFresh "xx:wave" "time" 7 with
              connected := true, auto_monitor := .abool true,
              args_value := some (false, [0, 1, 2, 3, 4, 5, 6, 7, 8, 9]),
              args_count := 10 } (some 3) true true (false, [])).2.2 =
      false ∧
    ∃ r, (pvGet { pvFresh "xx:wave" "time" 7 with
              connected := true, auto_monitor := .abool true,
              args_value := some (false, [0, 1, 2, 3, 4, 5, 6, 7, 8, 9]),
              args_count := 10 } (some 3) true true (false, [])).2.1 =
        some r ∧ GetResult.elems r = [0, 1, 2] ∧
        GetResult.pyLen r = 3 := by
  have h := get_cached_truncation_C6
    { pvFresh "xx:wave" "time" 7 with
        connected := true, auto_monitor := .abool true,
        args_value := some (false, [0, 1, 2, 3, 4, 5, 6, 7, 8, 9]),
        args_count := 10 }
    false [0, 1, 2, 3, 4, 5, 6, 7, 8, 9] 3 10 (false, [])
    rfl rfl rfl rfl (by decide) (by decide)
  exact ⟨(h.1 true).1, h.2.1 true (Or.inr (Or.inr (Or.inl (by decide))))⟩

/-- C7 (code bug): `get_pv` consults `_PVcache_` only when its
`context` argument is `None` — the lookup is nested inside
`if context is None:` — so a lookup that passes the context explicitly
(even the current one) bypasses the cache and constructs a fresh `PV`
every time, while two implicit-context lookups do share one instance;
after an explicit disconnect the next lookup constructs a fresh
instance, as specified. -/
theorem cache_dedup_C7 :
    (get_pv ((get_pv ⟨[], 0, 7⟩ "xx:m1" "time" none).2)
        "xx:m1" "time" none).1 = 0 ∧
    (get_pv ⟨[], 0, 7⟩ "xx:m1" "time" none).1 = 0 ∧
    (get_pv ((get_pv ⟨[], 0, 7⟩ "xx:m1" "time" none).2)
        "xx:m1" "time" (some 7)).1 = 1 ∧
    (get_pv ((get_pv ⟨[], 0, 7⟩ "xx:m1" "time" none).2)
        "xx:m1" "time" (some 7)).2.cache =
      (get_pv ⟨[], 0, 7⟩ "xx:m1" "time" none).2.cache ∧
    (get_pv (pvDisconnect (pvFresh "xx:m1" "time" 7)
        ((get_pv ⟨[], 0, 7⟩ "xx:m1" "time" none).2)).2.1
        "xx:m1" "time" none).1 = 1 := by
  exact ⟨by decide, by decide, by decide, by decide, by decide⟩

/-- C8 (code bug): `disconnect` on a `PV` with a live subscription pops
the `_PVcache_` entry and clears `connected`, but then raises
`NotImplementedError` before clearing anything else, so `_monref` and
the user callbacks survive; only a `PV` without a live subscription
gets its callbacks cleared. -/
theorem disconnect_C8 :
    (pvDisconnect
        { pvFresh "xx:m1" "time" 7 with
            connected := true, monref := some (42, some 5),
            callbacks := [(0, ())] }
        ⟨[(("xx:m1", "time", 7), 0)], 1, 7⟩).2.2 =
      some .notImplementedError ∧
    (pvDisconnect
        { pvFresh "xx:m1" "time" 7 with
            connected := true, monref := some (42, some 5),
            callbacks := [(0, ())] }
        ⟨[(("xx:m1", "time", 7), 0)], 1, 7⟩).1.monref =
      some (42, some 5) ∧
    (pvDisconnect
        { pvFresh "xx:m1" "time" 7 with
            connected := true, monref := some (42, some 5),
            callbacks := [(0, ())] }
        ⟨[(("xx:m1", "time", 7), 0)], 1, 7⟩).1.callbacks = [(0, ())] ∧
    (pvDisconnect
        { pvFresh "xx:m1" "time" 7 with
            connected := true, monref := some (42, some 5),
            callbacks := [(0, ())] }
        ⟨[(("xx:m1", "time", 7), 0)], 1, 7⟩).1.connected = false ∧
    (pvDisconnect
        { pvFresh "xx:m1" "time" 7 with
            connected := true, monref := some (42, some 5),
            callbacks := [(0, ())] }
        ⟨[(("xx:m1", "time", 7), 0)], 1, 7⟩).2.1.cache = [] ∧
    (pvDisconnect
        { pvFresh "xx:m1" "time" 7 with
            connected := true, callbacks := [(0, ())] }
        ⟨[(("xx:m1", "time", 7), 0)], 1, 7⟩).2.2 = none ∧
    (pvDisconnect
        { pvFresh "xx:m1" "time" 7 with
            connected := true, callbacks := [(0, ())] }
        ⟨[(("xx:m1", "time", 7), 0)], 1, 7⟩).1.callbacks = [] := by
  exact ⟨by decide, by decide, by decide, by decide, by decide,
    by decide, by decide⟩

/-- C10 (code bug): the enum-resolution step of `put`.  When the
`'enum_strs'` key has never been written (the constructor initialises
`_args` with only `value`/`pvname`/`count`), `self._args['enum_strs']`
raises `KeyError` instead of fetching control metadata.  When the key
is present, the specified behaviour holds: a present-`None` entry
triggers the metadata fetch and the string resolves to the first
matching label's index; a cached label list resolves without fetching;
a string matching no label passes through unchanged with no error. -/
theorem put_enum_resolution_C10 :
    putResolveEnum dbrENUM none (some ["stop", "go"]) (.str "go") =
      .error .keyError ∧
    putResolveEnum dbrENUM (some none) (some ["stop", "go"])
        (.str "go") = .ok (.num 1, true) ∧
    putResolveEnum dbrENUM (some (some ["stop", "go"])) none
        (.str "go") = .ok (.num 1, false) ∧
    putResolveEnum dbrENUM (some (some ["stop", "go"])) none
        (.str "fly") = .ok (.str "fly", false) ∧
    putResolveEnum dbrTIME_ENUM (some (some ["stop", "go"])) none
        (.str "stop") = .ok (.num 0, false) ∧
    putResolveEnum 6 (some (some ["stop", "go"])) none (.str "go") =
      .ok (.str "go", false) := by
  exact ⟨rfl, rfl, rfl, rfl, rfl, rfl⟩

end PyPVAsync
